import Mathlib

/-!
Verification of the ts-poe streaming protocol engine.

Shallow embedding of the core of the `ts-poe` repository (a TypeScript
implementation of the Poe bot protocol): the SSE codec (`src/lib/sse.ts`),
the bot client state machine and retry loop (`src/lib/client.ts`), the
tool-call aggregation (`getToolCalls`), the server-side query handler
(`src/lib/base.ts`), and the Express auth/dispatch glue
(`src/lib/express.ts`).  JavaScript strings are modelled as Lean `String`
(operating on `List Char` where induction is needed), JS numbers that hold
integers as `Int`/`Nat`, absent (`undefined`) values as `Option`, and thrown
exceptions as `Except`/explicit error results.
-/

namespace TsPoe

/-! ### SSE codec: `src/lib/sse.ts` -/

/-- `interface ServerSentEvent { data?; event?; id?; retry?: number }`. -/
structure ServerSentEvent where
  data : Option String
  event : Option String
  id : Option String
  retry : Option Int
deriving DecidableEq

/-- `LINE_SEP_EXPR = /\r\n|\r|\n/`: test whether a character can start a
line separator (both separator characters, since every separator begins
with `\r` or `\n`). -/
def isSepChar (c : Char) : Prop := c = '\r' ∨ c = '\n'

instance (c : Char) : Decidable (isSepChar c) := by
  unfold isSepChar; infer_instance

/-- `String.prototype.split(LINE_SEP_EXPR)`: split on every occurrence of
`\r\n`, `\r` or `\n` (leftmost-longest: `\r\n` counts as one separator). -/
def splitSepsAux : List Char → List Char → List (List Char)
  | [], acc => [acc.reverse]
  | '\r' :: '\n' :: rest, acc => acc.reverse :: splitSepsAux rest []
  | '\r' :: rest, acc => acc.reverse :: splitSepsAux rest []
  | '\n' :: rest, acc => acc.reverse :: splitSepsAux rest []
  | c :: rest, acc => splitSepsAux rest (c :: acc)

/-- `s.split(LINE_SEP_EXPR)` on a JS string. -/
def splitLineSep (s : String) : List String :=
  (splitSepsAux s.toList []).map (fun cs => String.mk cs)

/-- `String.prototype.replace(LINE_SEP_EXPR, '')`: the regex has no `g`
flag, so JavaScript removes only the FIRST occurrence of `\r\n`, `\r` or
`\n` and leaves the rest of the string untouched. -/
def stripFirstSep : List Char → List Char
  | [] => []
  | '\r' :: '\n' :: rest => rest
  | '\r' :: rest => rest
  | '\n' :: rest => rest
  | c :: rest => c :: stripFirstSep rest

/-- `s.replace(LINE_SEP_EXPR, '')` on a JS string. -/
def replaceFirstLineSep (s : String) : String :=
  String.mk (stripFirstSep s.toList)

/-- Digit character of `d % 10`, as produced by JS number-to-string
conversion. -/
def digitChar : Nat → Char
  | 0 => '0' | 1 => '1' | 2 => '2' | 3 => '3' | 4 => '4'
  | 5 => '5' | 6 => '6' | 7 => '7' | 8 => '8' | _ => '9'

/-- Decimal digits of a natural number (most significant first),
accumulator form. -/
def natToCharsAux : Nat → List Char → List Char
  | n, acc =>
    if h : n < 10 then digitChar n :: acc
    else natToCharsAux (n / 10) (digitChar (n % 10) :: acc)
  termination_by n _ => n
  decreasing_by
    exact Nat.div_lt_self (by omega) (by omega)

/-- Decimal digits of a natural number. -/
def natToChars (n : Nat) : List Char := natToCharsAux n []

/-- JS template-literal rendering `${n}` of an integer-valued number. -/
def jsIntToString (i : Int) : String :=
  if i < 0 then String.mk ('-' :: natToChars i.natAbs)
  else String.mk (natToChars i.toNat)

/-- Map over a list and concatenate the results (`output += ...` per chunk
in the encoder). -/
def catMap (f : α → List β) (l : List α) : List β :=
  (l.map f).flatten

/-- Character-level body of `encodeServerSentEvent(sse, comment, sep)`:
comment lines, then `id:`/`event:` (first separator stripped, see
`stripFirstSep`), one `data:` line per separator-split chunk, `retry:`,
and a final separator terminating the record. -/
def encodeCoreWith (sse : ServerSentEvent) (comment : List Char) (sep : List Char) :
    List Char :=
  (if comment = [] then []
   else catMap (fun chunk => ':' :: ' ' :: (chunk ++ sep)) (splitSepsAux comment [])) ++
  (match sse.id with
   | some i => ("id: ".toList ++ stripFirstSep i.toList) ++ sep
   | none => []) ++
  (match sse.event with
   | some v => ("event: ".toList ++ stripFirstSep v.toList) ++ sep
   | none => []) ++
  (match sse.data with
   | some d => catMap (fun chunk => "data: ".toList ++ chunk ++ sep) (splitSepsAux d.toList [])
   | none => []) ++
  (match sse.retry with
   | some r => ("retry: ".toList ++ (jsIntToString r).toList) ++ sep
   | none => []) ++
  sep

/-- `encodeServerSentEvent(sse, comment = '', sep = '\r\n')` (the `Buffer`
wrapper is dropped; the retry `typeof` check cannot fail since `retry` is
an `Int`). -/
def encodeServerSentEvent (sse : ServerSentEvent) (comment : String) (sep : String) :
    String :=
  String.mk (encodeCoreWith sse comment.toList sep.toList)

/-- Split a character stream on every exact `\r\n` pair (used to recover
the separator-terminated lines of an encoded record). -/
def crlfSplitAux : List Char → List Char → List (List Char)
  | [], acc => [acc.reverse]
  | '\r' :: '\n' :: rest, acc => acc.reverse :: crlfSplitAux rest []
  | c :: rest, acc => crlfSplitAux rest (c :: acc)

/-- The `\r\n`-terminated lines of the record produced by
`encodeServerSentEvent(sse)` with the default separator; these are the
lines that `EventSource.iterSSE` feeds one at a time into the decoder
(the trailing remainder after the last separator is empty and never fed). -/
def encodeRecordLines (sse : ServerSentEvent) : List String :=
  ((crlfSplitAux (encodeCoreWith sse [] ['\r', '\n']) []).map
    (fun cs => String.mk cs)).dropLast

/-- The private mutable fields of `class SSEDecoder`. -/
structure SSEDecoderState where
  event : String
  data : List String
  lastEventId : String
  retry : Option Int
deriving DecidableEq

/-- A fresh `new SSEDecoder()`. -/
def initSSEDecoder : SSEDecoderState := ⟨"", [], "", none⟩

/-- `extractFieldAndValue(line)`: split at the first `:`; a single leading
space of the value is stripped; with no colon the whole line is the field
name and the value is empty. -/
def extractFVAux : List Char → List Char → List Char × List Char
  | [], acc => (acc.reverse, [])
  | ':' :: ' ' :: rest, acc => (acc.reverse, rest)
  | ':' :: rest, acc => (acc.reverse, rest)
  | c :: rest, acc => extractFVAux rest (c :: acc)

/-- JS `parseInt` whitespace characters (the common ones). -/
def isJsSpace (c : Char) : Bool :=
  c = ' ' || c = '\t' || c = '\n' || c = '\r'

/-- Consume leading decimal digits, `none` when no digit was read
(`parseInt` yields `NaN`). -/
def takeDigits : List Char → Nat → Bool → Option Nat
  | [], acc, seen => if seen then some acc else none
  | c :: rest, acc, seen =>
    if '0' ≤ c ∧ c ≤ '9' then
      takeDigits rest (acc * 10 + (c.toNat - 48)) true
    else
      if seen then some acc else none

/-- `parseInt(value)` restricted to base 10: skip leading whitespace, an
optional sign, then leading digits; `none` models `NaN`.  (The `0x` radix-16
branch of JS `parseInt` is not modelled; no encoded record produces it.) -/
def parseIntJS (cs : List Char) : Option Int :=
  match cs.dropWhile isJsSpace with
  | '-' :: rest => (takeDigits rest 0 false).map (fun n => -(n : Int))
  | '+' :: rest => (takeDigits rest 0 false).map (fun n => (n : Int))
  | rest => (takeDigits rest 0 false).map (fun n => (n : Int))

/-- `this.data.join('\n')` at character level. -/
def nlJoin : List (List Char) → List Char
  | [] => []
  | [x] => x
  | x :: rest => x ++ '\n' :: nlJoin rest

/-- `Array.prototype.join('\n')` on the accumulated data lines. -/
def joinNewline (parts : List String) : String :=
  String.mk (nlJoin (parts.map String.toList))

/-- Body of `SSEDecoder.decode(line)` over the characters of the line.
On a blank line: no event if all four accumulators are falsy/null
(`!this.event && this.data.length === 0 && !this.lastEventId &&
this.retry === null`); otherwise dispatch an event and reset `event`,
`data` and `retry` but not `lastEventId`.  In the dispatched event the
source writes `event: this.event ?? 'message'`, but `this.event` is a
non-nullable string initialised to `''`, so the `?? 'message'` fallback
never fires and the field is just `this.event`. -/
def decodeCore (st : SSEDecoderState) (line : List Char) :
    SSEDecoderState × Option ServerSentEvent :=
  match line with
  | [] =>
    if st.event = "" ∧ st.data = [] ∧ st.lastEventId = "" ∧ st.retry = none then
      (st, none)
    else
      ({ st with event := "", data := [], retry := none },
       some ⟨some (joinNewline st.data), some st.event, some st.lastEventId, st.retry⟩)
  | ':' :: _ => (st, none)
  | _ =>
    let fv := extractFVAux line []
    if fv.1 = "event".toList then
      ({ st with event := String.mk fv.2 }, none)
    else if fv.1 = "data".toList then
      ({ st with data := st.data ++ [String.mk fv.2] }, none)
    else if fv.1 = "id".toList then
      if '\x00' ∈ fv.2 then (st, none)
      else ({ st with lastEventId := String.mk fv.2 }, none)
    else if fv.1 = "retry".toList then
      match parseIntJS fv.2 with
      | some n => ({ st with retry := some n }, none)
      | none => (st, none)
    else
      (st, none)

/-- `SSEDecoder.decode(line)`. -/
def SSEDecoder.decode (st : SSEDecoderState) (line : String) :
    SSEDecoderState × Option ServerSentEvent :=
  decodeCore st line.toList

/-- Feed a sequence of lines into the decoder, collecting the dispatched
events in order. -/
def decodeAll (st : SSEDecoderState) : List String → SSEDecoderState × List ServerSentEvent
  | [] => (st, [])
  | l :: rest =>
    match SSEDecoder.decode st l with
    | (st2, none) => decodeAll st2 rest
    | (st2, some e) =>
      let r := decodeAll st2 rest
      (r.1, e :: r.2)

/-- All events dispatched by a fresh `SSEDecoder` fed the given lines. -/
def decodeStream (lines : List String) : List ServerSentEvent :=
  (decodeAll initSSEDecoder lines).2

/-! ### JSON values: `src/lib/internal/types.ts` and `internal/utils.ts` -/

/-- A parsed JSON value (`JsonValue`); numbers are restricted to the
integers that actually occur in the protocol payloads. -/
inductive Json where
  | null
  | bool (b : Bool)
  | num (n : Int)
  | str (s : String)
  | arr (elems : List Json)
  | obj (fields : List (String × Json))

/-- `JSON.stringify` escaping of one character (the `\uXXXX` forms for
rare control characters are not modelled; no claim produces them). -/
def escapeJsonChar (c : Char) : List Char :=
  if c = '"' then ['\\', '"']
  else if c = '\\' then ['\\', '\\']
  else if c = '\n' then ['\\', 'n']
  else if c = '\r' then ['\\', 'r']
  else if c = '\t' then ['\\', 't']
  else [c]

/-- A JSON string literal as produced by `JSON.stringify`. -/
def jsonQuote (s : String) : String :=
  "\"" ++ String.mk (catMap escapeJsonChar s.toList) ++ "\""

mutual

/-- `JSON.stringify(v)`: object fields and array elements are emitted in
insertion order, which is how V8 serialises string-keyed objects. -/
def Json.stringify : Json → String
  | .null => "null"
  | .bool b => if b then "true" else "false"
  | .num n => jsIntToString n
  | .str s => jsonQuote s
  | .arr es => "[" ++ stringifyElems es ++ "]"
  | .obj fs => "\x7b" ++ stringifyFields fs ++ "\x7d"

/-- Comma-separated serialisation of array elements. -/
def stringifyElems : List Json → String
  | [] => ""
  | [e] => Json.stringify e
  | e :: rest => Json.stringify e ++ "," ++ stringifyElems rest

/-- Comma-separated serialisation of object fields. -/
def stringifyFields : List (String × Json) → String
  | [] => ""
  | [kv] => jsonQuote kv.1 ++ ":" ++ Json.stringify kv.2
  | kv :: rest => jsonQuote kv.1 ++ ":" ++ Json.stringify kv.2 ++ "," ++ stringifyFields rest

end

/-- `camelToSnakeCase(str)`: each ASCII capital is replaced by `_` plus
its lower-case form (`str.replace(/[A-Z]/g, ...)`). -/
def camelToSnakeCase (s : String) : String :=
  String.mk (catMap (fun c => if 'A' ≤ c ∧ c ≤ 'Z' then ['_', c.toLower] else [c]) s.toList)

mutual

/-- `modelDump(obj)` with the default `deepDump = true`: recursively
snake-case every object key; primitives and `null` are returned as-is. -/
def modelDumpJson : Json → Json
  | .arr es => .arr (modelDumpElems es)
  | .obj fs => .obj (modelDumpFields fs)
  | j => j

/-- `modelDump` mapped over array elements. -/
def modelDumpElems : List Json → List Json
  | [] => []
  | e :: rest => modelDumpJson e :: modelDumpElems rest

/-- `modelDump` mapped over object entries (`Object.entries` preserves
string-key insertion order). -/
def modelDumpFields : List (String × Json) → List (String × Json)
  | [] => []
  | kv :: rest => (camelToSnakeCase kv.1, modelDumpJson kv.2) :: modelDumpFields rest

end

/-- `safeEllipsis(obj, limit)` for a string argument (the only use the
claims touch): truncate to `limit - 3` characters plus `...`. -/
def safeEllipsis (s : String) (limit : Nat) : String :=
  if s.length > limit then String.mk (s.toList.take (limit - 3)) ++ "..." else s

/-! ### Bot client state machine: `BotContext.performQueryRequest`
(`src/lib/client.ts`) -/

/-- An incoming decoded SSE as seen by the client loop: the event name and
the JSON parse of its `data` field (`none` models data that is absent or
fails `JSON.parse`). -/
structure ClientEvent where
  event : String
  data : Option Json

/-- The errors the client loop can raise: `BotError` (retryable),
`BotErrorNoRetry`, or a plain JS exception. -/
inductive BotErr where
  | botError (message : String)
  | botErrorNoRetry (message : String)
  | jsError (message : String)
deriving DecidableEq

/-- Observable actions of the client loop: responses yielded to the
consumer, and `reportError` back-channel posts. -/
inductive ClientOutput where
  | yieldedText (text : String) (isSuggestedReply : Bool) (isReplaceResponse : Bool)
  | yieldedJson (data : Json)
  | yieldedMeta (linkify : Bool) (suggestedReplies : Bool) (contentType : String)
  | reported (message : String)

/-- `typeof parsed === 'object' && parsed !== null` (JS arrays are
objects, so they pass this check). -/
def Json.isDictLike : Json → Bool
  | .obj _ => true
  | .arr _ => true
  | _ => false

/-- `parsed[key]`: field lookup in a JS object (`undefined` - `none` -
for arrays and missing keys). -/
def Json.getField : Json → String → Option Json
  | .obj fields, k => fields.lookup k
  | _, _ => none

/-- JS truthiness of a JSON value. -/
def Json.truthy : Json → Bool
  | .null => false
  | .bool b => b
  | .num n => n ≠ 0
  | .str s => s ≠ ""
  | .arr _ => true
  | .obj _ => true

/-- `loadJsonDict(data, context, messageId)`: produce the reported errors
and the result.  A failed parse reports and raises
`BotErrorNoRetry("Invalid JSON in <context> event")`; a successful parse
of a non-object reports `Expected JSON dict`, but the `BotError` it then
throws is caught by the surrounding `try`'s own `catch`, which reports
`Invalid JSON` again and rethrows as `BotErrorNoRetry`. -/
def loadJsonDict (data : Option Json) (context : String) :
    List ClientOutput × Except BotErr Json :=
  match data with
  | none =>
    ([.reported ("Invalid JSON in " ++ context ++ " event")],
     .error (.botErrorNoRetry ("Invalid JSON in " ++ context ++ " event")))
  | some j =>
    if j.isDictLike then ([], .ok j)
    else
      ([.reported ("Expected JSON dict in " ++ context ++ " event"),
        .reported ("Invalid JSON in " ++ context ++ " event")],
       .error (.botErrorNoRetry ("Invalid JSON in " ++ context ++ " event")))

/-- `getSingleJsonField(data, context, messageId)` with the default
`field = 'text'` (the only form used): the `text` field must be a JSON
string. -/
def getSingleJsonField (data : Option Json) (context : String) :
    List ClientOutput × Except BotErr String :=
  match loadJsonDict data context with
  | (outs, .error e) => (outs, .error e)
  | (outs, .ok d) =>
    match d.getField "text" with
    | some (.str t) => (outs, .ok t)
    | _ =>
      (outs ++ [.reported ("Expected string in 'text' field for '" ++ context ++ "' event")],
       .error (.botErrorNoRetry ("Expected string in '" ++ context ++ "' event")))

/-- `data[key] ?? dflt`: `undefined` and `null` both fall back to the
default. -/
def metaFieldOr (d : Json) (k : String) (dflt : Json) : Json :=
  match d.getField k with
  | none => dflt
  | some .null => dflt
  | some v => v

/-- `data['allow_retry'] ?? true`, then used as a JS condition. -/
def errorAllowRetry (d : Json) : Bool :=
  match d.getField "allow_retry" with
  | none => true
  | some .null => true
  | some v => v.truthy

/-- The loop-local state of `performQueryRequest`: the accumulated text
`chunks`, `eventCount`, and `errorReported`. -/
structure PQState where
  chunks : List String
  eventCount : Nat
  errorReported : Bool
deriving DecidableEq

/-- Effect of one loop iteration: continue with a new state, return
(`done`), or throw. -/
inductive PQStepResult where
  | next (st : PQState) (outs : List ClientOutput)
  | finished (outs : List ClientOutput)
  | raised (outs : List ClientOutput) (err : BotErr)

/-- One iteration of the `for await (const sse of eventSource.iterSSE())`
body of `performQueryRequest` (the debug-only `rawResponse`/`fullPrompt`
fields of yielded responses are not tracked).  `toolsProvided` is the
truthiness of the `tools` argument. -/
def pqStep (toolsProvided : Bool) (st : PQState) (e : ClientEvent) : PQStepResult :=
  let st1 : PQState := { st with eventCount := st.eventCount + 1 }
  if e.event = "done" then
    .finished
      (if st1.chunks = [] ∧ st1.errorReported = false ∧ toolsProvided = false then
        [.reported "Bot returned no text in response"]
       else [])
  else if e.event = "text" then
    match getSingleJsonField e.data "text" with
    | (outs, .error err) => .raised outs err
    | (outs, .ok t) =>
      .next { st1 with chunks := st1.chunks ++ [t] } (outs ++ [.yieldedText t false false])
  else if e.event = "replace_response" then
    match getSingleJsonField e.data "replace_response" with
    | (outs, .error err) => .raised outs err
    | (outs, .ok t) =>
      .next { st1 with chunks := [t] } (outs ++ [.yieldedText t false true])
  else if e.event = "suggested_reply" then
    match getSingleJsonField e.data "suggested_reply" with
    | (outs, .error err) => .raised outs err
    | (outs, .ok t) => .next st1 (outs ++ [.yieldedText t true false])
  else if e.event = "json" then
    match e.data with
    | some j => .next st1 [.yieldedJson j]
    | none => .raised [] (.jsError "SyntaxError in JSON.parse")
  else if e.event = "meta" then
    if st1.eventCount ≠ 1 then .next st1 []
    else
      match loadJsonDict e.data "meta" with
      | (outs, .error err) => .raised outs err
      | (outs, .ok d) =>
        match metaFieldOr d "linkify" (.bool false) with
        | .bool linkify =>
          match metaFieldOr d "suggested_replies" (.bool false) with
          | .bool suggestedReplies =>
            match metaFieldOr d "content_type" (.str "text/markdown") with
            | .str contentType =>
              .next st1 (outs ++ [.yieldedMeta linkify suggestedReplies contentType])
            | _ =>
              .next { st1 with errorReported := true }
                (outs ++ [.reported "Invalid content_type value in 'meta' event"])
          | _ =>
            .next { st1 with errorReported := true }
              (outs ++ [.reported "Invalid suggested_replies value in 'meta' event"])
        | _ =>
          .next { st1 with errorReported := true }
            (outs ++ [.reported "Invalid linkify value in 'meta' event"])
  else if e.event = "error" then
    match loadJsonDict e.data "error" with
    | (outs, .error err) => .raised outs err
    | (outs, .ok d) =>
      if errorAllowRetry d then .raised outs (.botError (Json.stringify d))
      else .raised outs (.botErrorNoRetry (Json.stringify d))
  else if e.event = "ping" then
    .next st1 []
  else
    .next { st1 with errorReported := true }
      [.reported ("Unknown event type: " ++ safeEllipsis e.event 100)]

/-- The outputs of one `performQueryRequest` call together with how it
finished (`.ok` - generator returned; `.error` - it threw). -/
structure ClientRun where
  outputs : List ClientOutput
  result : Except BotErr Unit

/-- Run the `performQueryRequest` loop over a list of incoming events;
when the stream ends without a `done` event the client reports
`Bot exited without sending 'done' event` and returns. -/
def performQueryRequestGo (tools : Bool) (st : PQState) :
    List ClientEvent → ClientRun
  | [] => ⟨[.reported "Bot exited without sending 'done' event"], .ok ()⟩
  | e :: rest =>
    match pqStep tools st e with
    | .next st2 outs =>
      let r := performQueryRequestGo tools st2 rest
      ⟨outs ++ r.outputs, r.result⟩
    | .finished outs => ⟨outs, .ok ()⟩
    | .raised outs err => ⟨outs, .error err⟩

/-- `performQueryRequest(request, tools?, ...)` from a fresh state. -/
def performQueryRequest (tools : Bool) (events : List ClientEvent) : ClientRun :=
  performQueryRequestGo tools ⟨[], 0, false⟩ events

/-- The responses actually yielded to the consumer (back-channel reports
are posts, not yields). -/
def isYieldedMessage : ClientOutput → Bool
  | .reported _ => false
  | _ => true

/-- The messages a consumer of `performQueryRequest` receives. -/
def clientMessages (run : ClientRun) : List ClientOutput :=
  run.outputs.filter isYieldedMessage

/-- The chunk accumulation of `getFinalResponse` for one received message:
skip `MetaResponse`s and suggested replies, clear on `isReplaceResponse`,
then push `message.text` (a `json` event yields text `''`). -/
def finalResponseStep (chunks : List String) : ClientOutput → List String
  | .yieldedMeta _ _ _ => chunks
  | .yieldedText t sug rep =>
    if sug then chunks
    else if rep then [t]
    else chunks ++ [t]
  | .yieldedJson _ => chunks ++ [""]
  | .reported _ => chunks

/-- `getFinalResponse(request, botName, ...)` applied to the stream of
received messages: join all accumulated chunks, raising
`BotError("Bot <name> sent no response")` when nothing accumulated. -/
def getFinalResponseCore (botName : String) (messages : List ClientOutput) :
    Except BotErr String :=
  let chunks := messages.foldl finalResponseStep []
  if chunks = [] then .error (.botError ("Bot " ++ botName ++ " sent no response"))
  else .ok (String.join chunks)

/-! ### Retry loop: `streamRequestBase` (`src/lib/client.ts`) -/

/-- Classification of an exception escaping one `performQueryRequest`
attempt, as tested by the `catch` block: `isBotErrorNoRetry`, an
`AxiosError` with `code === 'ECONNABORTED'`, any other `Error`, or a
thrown non-`Error` value (which matches neither branch). -/
inductive AttemptError where
  | noRetry (message : String)
  | econnAborted
  | other (message : String)
  | nonError
deriving DecidableEq

/-- What one attempt does: yield some messages and either complete or
throw. -/
inductive AttemptOutcome where
  | success (msgs : List ClientOutput)
  | failure (msgs : List ClientOutput) (err : AttemptError)

/-- Result of a full `streamRequestBase` run: how many times
`performQueryRequest` was called, everything yielded to the caller, and
whether the generator completed or threw. -/
structure StreamRunResult where
  calls : Nat
  yielded : List ClientOutput
  result : Except BotErr Unit

/-- The `for (let i = 0; i < numTries; i++)` retry loop of
`streamRequestBase`.  `gotResponse` is set by any yielded message and is
never reset between attempts.  `BotErrorNoRetry` is rethrown; for other
`Error`s, `allowRetryAfterResponse` holds exactly for ECONNABORTED axios
errors, and `(gotResponse && !allowRetryAfterResponse) || i === numTries-1`
raises `BotError("Error communicating with bot <name>")`; a thrown
non-`Error` matches neither branch and the loop just continues. -/
def streamRequestBaseAux (attempts : Nat → AttemptOutcome) (botName : String) :
    Nat → Nat → Bool → List ClientOutput → StreamRunResult
  | 0, i, _, acc => ⟨i, acc, .ok ()⟩
  | remaining + 1, i, gotResponse, acc =>
    match attempts i with
    | .success msgs => ⟨i + 1, acc ++ msgs, .ok ()⟩
    | .failure msgs err =>
      let got := gotResponse || !msgs.isEmpty
      let acc2 := acc ++ msgs
      match err with
      | .noRetry m => ⟨i + 1, acc2, .error (.botErrorNoRetry m)⟩
      | .econnAborted =>
        if remaining = 0 then
          ⟨i + 1, acc2, .error (.botError ("Error communicating with bot " ++ botName))⟩
        else streamRequestBaseAux attempts botName remaining (i + 1) got acc2
      | .other _ =>
        if got = true ∨ remaining = 0 then
          ⟨i + 1, acc2, .error (.botError ("Error communicating with bot " ++ botName))⟩
        else streamRequestBaseAux attempts botName remaining (i + 1) got acc2
      | .nonError => streamRequestBaseAux attempts botName remaining (i + 1) got acc2

/-- `streamRequestBase(request, botName, ..., numTries)` starting from
attempt 0 with `gotResponse = false`.  The loop is driven by the number of
remaining iterations `numTries - i`, so the source's `i === numTries - 1`
test is `remaining = 0` here. -/
def streamRequestBase (attempts : Nat → AttemptOutcome) (botName : String)
    (numTries : Nat) : StreamRunResult :=
  streamRequestBaseAux attempts botName numTries 0 false []

/-! ### Tool-call aggregation: `getToolCalls` (`src/lib/client.ts`) -/

/-- One streamed tool-call delta
(`data.choices[0].delta.tool_calls[0]`), with all optional fields
present (a delta with missing fields is skipped by the source's
`try/catch` and carries no arguments). -/
structure ToolCallDelta where
  index : Nat
  id : String
  type : String
  name : String
  arguments : String
deriving DecidableEq

/-- `ToolCallDefinition.function`. -/
structure ToolCallFunctionDef where
  name : String
  arguments : String
deriving DecidableEq

/-- `{id, type, function: {name, arguments}}` as returned by
`getToolCalls`. -/
structure ToolCallDefinition where
  id : String
  type : String
  function : ToolCallFunctionDef
deriving DecidableEq

/-- The body of the aggregation loop: a first delta for an index is stored
whole (`toolCallObjectDict[index] = toolCallObject`); a later delta with
the same index only appends its `function.arguments` string.  The numeric
dictionary is modelled as an association list in insertion order. -/
def upsertToolCallDelta (dict : List (Nat × ToolCallDelta)) (d : ToolCallDelta) :
    List (Nat × ToolCallDelta) :=
  if dict.any (fun kv => kv.1 = d.index) then
    dict.map (fun kv =>
      if kv.1 = d.index then
        (kv.1, { kv.2 with arguments := kv.2.arguments ++ d.arguments })
      else kv)
  else dict ++ [(d.index, d)]

/-- Aggregate all deltas of the round-1 stream in arrival order. -/
def aggregateToolCallDeltas (ds : List ToolCallDelta) : List (Nat × ToolCallDelta) :=
  ds.foldl upsertToolCallDelta []

/-- Insert an entry into a key-sorted association list. -/
def insertByIndex (x : Nat × ToolCallDelta) :
    List (Nat × ToolCallDelta) → List (Nat × ToolCallDelta)
  | [] => [x]
  | y :: rest => if x.1 ≤ y.1 then x :: y :: rest else y :: insertByIndex x rest

/-- Insertion sort by key. -/
def sortByIndex : List (Nat × ToolCallDelta) → List (Nat × ToolCallDelta)
  | [] => []
  | x :: rest => insertByIndex x (sortByIndex rest)

/-- `Object.values(toolCallObjectDict).sort((a, b) => a.index - b.index)`:
the indices are unique keys, so this is exactly a sort of the aggregated
entries by ascending index. -/
def sortedToolCallObjects (ds : List ToolCallDelta) : List (Nat × ToolCallDelta) :=
  sortByIndex (aggregateToolCallDeltas ds)

/-- `getToolCalls`: project the sorted aggregates to
`{id, type, function: {name, arguments}}`. -/
def getToolCalls (ds : List ToolCallDelta) : List ToolCallDefinition :=
  (sortedToolCallObjects ds).map (fun kv => ⟨kv.2.id, kv.2.type, ⟨kv.2.name, kv.2.arguments⟩⟩)

/-! ### Server side: `PoeBot` (`src/lib/base.ts`) -/

/-- `PoeBot.textEvent(text)`. -/
def PoeBot.textEvent (text : String) : ServerSentEvent :=
  ⟨some (Json.stringify (Json.obj [("text", Json.str text)])), some "text", none, none⟩

/-- `PoeBot.replaceResponseEvent(text)`. -/
def PoeBot.replaceResponseEvent (text : String) : ServerSentEvent :=
  ⟨some (Json.stringify (Json.obj [("text", Json.str text)])), some "replace_response", none, none⟩

/-- `PoeBot.doneEvent()`: `{ data: '{}', event: 'done' }`. -/
def PoeBot.doneEvent : ServerSentEvent :=
  ⟨some "\x7b\x7d", some "done", none, none⟩

/-- `PoeBot.suggestedReplyEvent(text)`. -/
def PoeBot.suggestedReplyEvent (text : String) : ServerSentEvent :=
  ⟨some (Json.stringify (Json.obj [("text", Json.str text)])), some "suggested_reply", none, none⟩

/-- `PoeBot.metaEvent(options)` (field order as written in the source). -/
def PoeBot.metaEvent (contentType : String) (refetchSettings linkify suggestedReplies : Bool) :
    ServerSentEvent :=
  ⟨some (Json.stringify (Json.obj
      [("content_type", Json.str contentType),
       ("refetch_settings", Json.bool refetchSettings),
       ("linkify", Json.bool linkify),
       ("suggested_replies", Json.bool suggestedReplies)])),
   some "meta", none, none⟩

/-- `PoeBot.errorEvent(text, {allowRetry, errorType})`: builds
`{allowRetry, text?, errorType?}` (the optional fields only when truthy)
and serialises `modelDump` of it, which snake-cases the keys. -/
def PoeBot.errorEvent (text : String) (allowRetry : Bool) (errorType : Option String) :
    ServerSentEvent :=
  let fields :=
    [("allowRetry", Json.bool allowRetry)] ++
    (if text ≠ "" then [("text", Json.str text)] else []) ++
    (match errorType with
     | some et => if et ≠ "" then [("errorType", Json.str et)] else []
     | none => [])
  ⟨some (Json.stringify (modelDumpJson (Json.obj fields))), some "error", none, none⟩

/-- An item yielded by the bot's `getResponseWithContext` generator, as
discriminated by the `isEventMessage` / `isErrorMessage` / `isMetaMessage`
/ `isPartialMessage` guards of `handleQuery` (in that order). -/
inductive BotEventItem where
  | sse (e : ServerSentEvent)
  | errorResponse (text : String) (allowRetry : Bool) (errorType : Option String)
  | metaResponse (contentType : String) (refetchSettings linkify suggestedReplies : Bool)
  | partialResponse (text : String) (isSuggestedReply isReplaceResponse : Bool)
deriving DecidableEq

/-- What a bot handler did: the items it yielded, and the message of an
`Error` it threw afterwards, if any. -/
structure HandlerRun where
  items : List BotEventItem
  thrown : Option String
deriving DecidableEq

/-- The event emitted by `handleQuery` for one yielded handler item. -/
def translateItem : BotEventItem → ServerSentEvent
  | .sse e => e
  | .errorResponse text allowRetry errorType => PoeBot.errorEvent text allowRetry errorType
  | .metaResponse ct rs l sr => PoeBot.metaEvent ct rs l sr
  | .partialResponse t sug rep =>
    if sug then PoeBot.suggestedReplyEvent t
    else if rep then PoeBot.replaceResponseEvent t
    else PoeBot.textEvent t

/-- `pendingFileAttachmentTasks`: message id to its in-flight upload
tasks; a task is `none` when its promise fulfils and `some message` when
it rejects with that error message. -/
abbrev PendingAttachmentTable := List (String × List (Option String))

/-- The rejection `Promise.all` settles with (modelled as the first
rejected task in list order). -/
def firstRejection : List (Option String) → Option String
  | [] => none
  | none :: rest => firstRejection rest
  | some m :: _ => some m

/-- `processPendingAttachmentRequests(messageId)`: with no entry, nothing
happens; when all tasks fulfil, `await Promise.all` succeeds and the entry
is deleted; when a task rejects, the function throws from the `await`, so
the `delete` after it never runs and the entry is left in the table. -/
def processPendingAttachmentRequests (table : PendingAttachmentTable)
    (messageId : String) : PendingAttachmentTable × Option String :=
  match List.lookup messageId table with
  | none => (table, none)
  | some tasks =>
    match firstRejection tasks with
    | none => (table.filter (fun kv => kv.1 ≠ messageId), none)
    | some m => (table, some m)

/-- `PoeBot.handleQuery(request, context)`: translate every yielded item;
a handler exception becomes one `error` event with `allowRetry: false`;
then the pending attachment drain (whose failure also becomes such an
event); finally always `doneEvent()`.  Returns the emitted events and the
attachment table after the drain.  (The attachment-message preprocessing
of the request does not affect the emitted event structure and is not
modelled.) -/
def PoeBot.handleQuery (run : HandlerRun) (table : PendingAttachmentTable)
    (messageId : String) : List ServerSentEvent × PendingAttachmentTable :=
  let mainEvents := run.items.map translateItem
  let handlerErr :=
    match run.thrown with
    | some m => [PoeBot.errorEvent m false none]
    | none => []
  let drained := processPendingAttachmentRequests table messageId
  let drainErr :=
    match drained.2 with
    | some m => [PoeBot.errorEvent m false none]
    | none => []
  (mainEvents ++ handlerErr ++ drainErr ++ [PoeBot.doneEvent], drained.1)

/-! ### Dispatcher auth: `src/lib/express.ts` -/

/-- `class HTTPException` as thrown by the route handlers: status code,
message, and the optional response headers it carries. -/
structure HTTPExceptionModel where
  statusCode : Nat
  message : String
  headers : List (String × String)
deriving DecidableEq

/-- The HTTP response the error middleware writes. -/
structure HttpResponseModel where
  status : Nat
  body : String
  headers : List (String × String)
deriving DecidableEq

/-- `authorization.split(' ')` at character level (a JS string separator
splits at every occurrence). -/
def splitCharAux (sep : Char) : List Char → List Char → List (List Char)
  | [], acc => [acc.reverse]
  | c :: rest, acc =>
    if c = sep then acc.reverse :: splitCharAux sep rest []
    else splitCharAux sep rest (c :: acc)

/-- `s.split(' ')`. -/
def jsSplitSpace (s : String) : List String :=
  (splitCharAux ' ' s.toList []).map String.mk

/-- `s.toLowerCase()` (ASCII, which is all the scheme check needs). -/
def jsToLower (s : String) : String :=
  String.mk (s.toList.map Char.toLower)

/-- `extractAuthorization(req)`: split the header on single spaces; a
missing header, or a falsy scheme or credentials, is 403
`Not authenticated`; a scheme other than case-insensitive `bearer` is 403
`Invalid authorization credentials`. -/
def extractAuthorization (authorization : Option String) :
    Except HTTPExceptionModel (String × String) :=
  match authorization with
  | none => .error ⟨403, "Not authenticated", []⟩
  | some auth =>
    let parts := jsSplitSpace auth
    let scheme := parts.getD 0 ""
    let credentials := parts.getD 1 ""
    if auth = "" ∨ scheme = "" ∨ credentials = "" then
      .error ⟨403, "Not authenticated", []⟩
    else if jsToLower scheme ≠ "bearer" then
      .error ⟨403, "Invalid authorization credentials", []⟩
    else .ok (scheme, credentials)

/-- The auth middleware `addRoutesForBot` installs: with no access key
(`!bot.accessKey`, the empty string models the unset key) requests pass
through; otherwise the scheme must be exactly `Bearer` and the credentials
must equal the key, else `HTTPException(401, 'Invalid access key')`
carrying the header `WWW-Authenticate: Bearer`. -/
def checkBotAuth (accessKey : String) (authorization : Option String) :
    Option HTTPExceptionModel :=
  if accessKey = "" then none
  else
    match extractAuthorization authorization with
    | .error e => some e
    | .ok sc =>
      if sc.1 ≠ "Bearer" ∨ sc.2 ≠ accessKey then
        some ⟨401, "Invalid access key", [("WWW-Authenticate", "Bearer")]⟩
      else none

/-- The `HTTPException` branch of the error middleware in `makeApp`:
`res.status(error.statusCode).send(error.message)`.  It never writes the
exception's `headers` field, so the emitted response carries no extra
headers. -/
def errorMiddlewareResponse (e : HTTPExceptionModel) : HttpResponseModel :=
  ⟨e.statusCode, e.message, []⟩

/-- The HTTP response a rejected POST receives (`none` when auth passes
and the request proceeds to the dispatcher). -/
def authResponse (accessKey : String) (authorization : Option String) :
    Option HttpResponseModel :=
  (checkBotAuth accessKey authorization).map errorMiddlewareResponse

/-! ### Concrete wire events used in the end-to-end scenarios -/

/-- A `text` event whose data parsed to `{"text": s}`. -/
def textEventIn (s : String) : ClientEvent :=
  ⟨"text", some (.obj [("text", .str s)])⟩

/-- A `replace_response` event whose data parsed to `{"text": s}`. -/
def replaceEventIn (s : String) : ClientEvent :=
  ⟨"replace_response", some (.obj [("text", .str s)])⟩

/-- A `done` event with data `{}`. -/
def doneEventIn : ClientEvent := ⟨"done", some (.obj [])⟩

/-- A first `meta` event:
`{"linkify":true,"suggested_replies":false,"content_type":"text/plain"}`. -/
def metaEventIn1 : ClientEvent :=
  ⟨"meta", some (.obj [("linkify", .bool true), ("suggested_replies", .bool false),
    ("content_type", .str "text/plain")])⟩

/-- A second, different `meta` event:
`{"linkify":false,"suggested_replies":true,"content_type":"text/markdown"}`. -/
def metaEventIn2 : ClientEvent :=
  ⟨"meta", some (.obj [("linkify", .bool false), ("suggested_replies", .bool true),
    ("content_type", .str "text/markdown")])⟩

/-- The field lines of an encoded record (default separator, no comment),
before the terminating separator: the specification view of
`encodeCoreWith` used by the round-trip proof. -/
def recordFieldLines (sse : ServerSentEvent) : List (List Char) :=
  (match sse.id with
   | some i => ["id: ".toList ++ stripFirstSep i.toList]
   | none => []) ++
  (match sse.event with
   | some v => ["event: ".toList ++ stripFirstSep v.toList]
   | none => []) ++
  (match sse.data with
   | some d => (splitSepsAux d.toList []).map (fun chunk => "data: ".toList ++ chunk)
   | none => []) ++
  (match sse.retry with
   | some r => ["retry: ".toList ++ (jsIntToString r).toList]
   | none => [])

/-- Proof-side lookup in the numeric tool-call dictionary (the entry whose
key equals `j`, if any). -/
def keyLookup (j : Nat) : List (Nat × ToolCallDelta) → Option ToolCallDelta
  | [] => none
  | kv :: rest => if kv.1 = j then some kv.2 else keyLookup j rest

/-! ## Theorems

Bridging lemmas between `String` and `List Char`, helper lemmas about the
embedded functions, and one theorem per claim (with witnesses and
counterexamples where required). -/

/-- `String.mk` and `String.toList` are definitionally inverse. -/
theorem toList_mk (cs : List Char) : (String.mk cs).toList = cs := rfl

/-- Rebuilding a string from its characters gives the string back. -/
theorem mk_toList (s : String) : String.mk s.toList = s := rfl

/-- String append is list append on the character lists. -/
theorem mk_append (a b : List Char) : String.mk a ++ String.mk b = String.mk (a ++ b) := rfl

/-- `toList` distributes over append. -/
theorem toList_append (a b : String) : (a ++ b).toList = a.toList ++ b.toList := rfl

/-- Claim C6 (code bug): the spec says every embedded line terminator in
an `id` or `event` value is stripped by the encoder, but
`String.prototype.replace` with the non-global `LINE_SEP_EXPR` removes
only the first one: for `id = "a\nb\nc"` the emitted field value is
`"ab\nc"`, which still contains a terminator (likewise for an `event`
with several `\r`).  Single-terminator values are handled correctly. -/
theorem claim_C6_code_bug_eval :
    replaceFirstLineSep "a\nb\nc" = "ab\nc" ∧
    '\n' ∈ (replaceFirstLineSep "a\nb\nc").toList ∧
    encodeServerSentEvent ⟨none, none, some "a\nb\nc", none⟩ "" "\r\n"
      = "id: ab\nc\r\n\r\n" ∧
    encodeServerSentEvent ⟨none, some "a\rb\rc", none, none⟩ "" "\r\n"
      = "event: ab\rc\r\n\r\n" ∧
    replaceFirstLineSep "a\r\nb" = "ab" := by
  exact ⟨rfl, by decide, rfl, rfl, rfl⟩

/-- Claim C7 counterexample: after the record `id: x` is dispatched by a
blank line, a second blank line arrives with no field lines seen since
that dispatch, yet the decoder emits a second event (the dispatch guard
also tests `lastEventId`, which dispatch preserves), contradicting the
claim that such a blank line produces no event. -/
theorem claim_C7_counterexample :
    decodeStream ["id: x", "", ""]
      = [⟨some "", some "", some "x", none⟩, ⟨some "", some "", some "x", none⟩] := by
  rfl

/-- Claim C7 (amended): a blank line produces no event iff the `event`,
`data` and `retry` accumulators are empty AND `last_event_id` is empty as
well (the decoder's guard also tests `lastEventId`); when a blank line
does dispatch, the decoder resets `event`, `data` and `retry` but
preserves `last_event_id` (the dispatched event carries the old
accumulators). -/
theorem claim_C7_amended :
    (∀ st : SSEDecoderState,
      st.event = "" → st.data = [] → st.lastEventId = "" → st.retry = none →
        SSEDecoder.decode st "" = (st, none)) ∧
    (∀ st : SSEDecoderState,
      ¬(st.event = "" ∧ st.data = [] ∧ st.lastEventId = "" ∧ st.retry = none) →
        SSEDecoder.decode st ""
          = ({ st with event := "", data := [], retry := none },
             some ⟨some (joinNewline st.data), some st.event, some st.lastEventId,
                   st.retry⟩)) := by
  constructor
  · intro st h1 h2 h3 h4
    show decodeCore st [] = (st, none)
    rw [decodeCore]
    exact if_pos ⟨h1, h2, h3, h4⟩
  · intro st h
    show decodeCore st [] = _
    rw [decodeCore]
    exact if_neg h

/-- Witness for the amended claim C7, at one empty and one loaded state. -/
theorem claim_C7_amended_witness :
    SSEDecoder.decode ⟨"", [], "", none⟩ "" = (⟨"", [], "", none⟩, none) ∧
    SSEDecoder.decode ⟨"", ["hi"], "x", some 5⟩ ""
      = (⟨"", [], "x", none⟩, some ⟨some "hi", some "", some "x", some 5⟩) := by
  constructor
  · exact claim_C7_amended.1 ⟨"", [], "", none⟩ rfl rfl rfl rfl
  · have h := claim_C7_amended.2 ⟨"", ["hi"], "x", some 5⟩ (by simp)
    simpa using h

/-- Claim C1 counterexample: encoding an event with `data = "x"` and no
`event` field and decoding its lines yields an event whose `event` field
is `""`, not `"message"`: the `?? 'message'` fallback in the decoder is
dead code because the accumulator is a non-nullable string initialised to
`''`. -/
theorem claim_C1_counterexample :
    decodeStream (encodeRecordLines ⟨some "x", none, none, none⟩)
      = [⟨some "x", some "", some "", none⟩] ∧
    (decodeStream (encodeRecordLines ⟨some "x", none, none, none⟩)).map
        ServerSentEvent.event ≠ [some "message"] := by
  exact ⟨rfl, by decide⟩

/-- Claim C2 counterexample: when the handler throws `Error("boom")`,
`handleQuery` emits an `error` event followed by `done`, but the error
event's data is `{"allow_retry":false,"text":"boom"}` - `errorEvent`
passes its payload through `modelDump`, which snake-cases the keys - so
the data cannot parse to an object with an `allowRetry` key (the key
string does not even occur in it). -/
theorem claim_C2_counterexample :
    (PoeBot.handleQuery ⟨[], some "boom"⟩ [] "m").1
      = [PoeBot.errorEvent "boom" false none, PoeBot.doneEvent] ∧
    (PoeBot.errorEvent "boom" false none).data
      = some "\x7b\"allow_retry\":false,\"text\":\"boom\"\x7d" ∧
    ¬ List.IsInfix "allowRetry".toList
        "\x7b\"allow_retry\":false,\"text\":\"boom\"\x7d".toList := by
  exact ⟨rfl, rfl, by decide⟩

/-- Claim C2 (amended): when the handler throws `Error("boom")`, the
emitted sequence contains an `error` event whose data parses to
`{"allow_retry": false, "text": "boom"}` (snake_case keys, produced by
`modelDump`), and for every handler run the final emitted event is the
`done` event with data `{}`. -/
theorem claim_C2_amended :
    (∀ (items : List BotEventItem) (table : PendingAttachmentTable) (mid : String),
      PoeBot.errorEvent "boom" false none
        ∈ (PoeBot.handleQuery ⟨items, some "boom"⟩ table mid).1) ∧
    (PoeBot.errorEvent "boom" false none).data
      = some "\x7b\"allow_retry\":false,\"text\":\"boom\"\x7d" ∧
    PoeBot.doneEvent.data = some "\x7b\x7d" ∧
    (∀ (run : HandlerRun) (table : PendingAttachmentTable) (mid : String),
      ((PoeBot.handleQuery run table mid).1).getLast? = some PoeBot.doneEvent) := by
  refine ⟨?_, rfl, rfl, ?_⟩
  · intro items table mid
    simp [PoeBot.handleQuery]
  · intro run table mid
    simp only [PoeBot.handleQuery]
    rw [List.getLast?_concat]

/-- Claim C10 (code bug): when an upload task for the request's message id
rejects, `processPendingAttachmentRequests` throws from
`await Promise.all(...)` before reaching the `delete`, so the table entry
survives the completed `handleQuery` stream (which still ends with an
`error` event and `done`); when all tasks fulfil the entry is removed. -/
theorem claim_C10_code_bug_eval :
    processPendingAttachmentRequests [("m1", [some "upload failed"])] "m1"
      = ([("m1", [some "upload failed"])], some "upload failed") ∧
    (PoeBot.handleQuery ⟨[], none⟩ [("m1", [some "upload failed"])] "m1").2
      = [("m1", [some "upload failed"])] ∧
    (PoeBot.handleQuery ⟨[], none⟩ [("m1", [some "upload failed"])] "m1").1
      = [PoeBot.errorEvent "upload failed" false none, PoeBot.doneEvent] ∧
    (PoeBot.handleQuery ⟨[], none⟩ [("m1", [none, none])] "m1").2 = [] := by
  exact ⟨rfl, rfl, rfl, rfl⟩

/-- Claim C8 (code bug): a keyed bot rejects a POST without
`Authorization` with 403 `Not authenticated`, and a well-formed bearer
token with wrong credentials with 401 `Invalid access key`; but while the
thrown `HTTPException` carries the `WWW-Authenticate: Bearer` header, the
error middleware only runs `res.status(...).send(message)` and never
writes the exception's headers, so the 401 response does not include it. -/
theorem claim_C8_code_bug_eval :
    authResponse "0123456789abcdef0123456789abcdef" none
      = some ⟨403, "Not authenticated", []⟩ ∧
    checkBotAuth "0123456789abcdef0123456789abcdef" (some "Bearer wrongkey")
      = some ⟨401, "Invalid access key", [("WWW-Authenticate", "Bearer")]⟩ ∧
    authResponse "0123456789abcdef0123456789abcdef" (some "Bearer wrongkey")
      = some ⟨401, "Invalid access key", []⟩ ∧
    authResponse "0123456789abcdef0123456789abcdef"
        (some "Bearer 0123456789abcdef0123456789abcdef") = none := by
  exact ⟨rfl, rfl, rfl, rfl⟩

/-- Claim C9: a `replace_response` event carrying text `x` leaves the
client's chunk accumulator equal to exactly `[x]` whatever the previous
state was, and for the stream `[text "A", replace_response "B", done]`
the consumer receives both partial responses and `getFinalResponse`
returns `"B"`. -/
theorem claim_C9_replace_semantics :
    (∀ (st : PQState) (x : String),
      pqStep false st (replaceEventIn x)
        = .next { st with eventCount := st.eventCount + 1, chunks := [x] }
            [.yieldedText x false true]) ∧
    (performQueryRequest false [textEventIn "A", replaceEventIn "B", doneEventIn]).outputs
      = [.yieldedText "A" false false, .yieldedText "B" false true] ∧
    getFinalResponseCore "bot"
        (clientMessages
          (performQueryRequest false [textEventIn "A", replaceEventIn "B", doneEventIn]))
      = .ok "B" := by
  exact ⟨fun st x => rfl, rfl, rfl⟩

/-- Claim C5: a `meta` event is only honoured as the first event of the
stream - when any event was already counted it is skipped with no output
and no state change beyond the event counter - and on the stream
`[meta1, text, meta2]` exactly `meta1` is yielded as a meta response
while `meta2` produces nothing (the trailing report is the missing-`done`
report, unrelated to `meta2`). -/
theorem claim_C5_meta_first :
    (∀ (tools : Bool) (st : PQState) (e : ClientEvent),
      e.event = "meta" → st.eventCount ≠ 0 →
        pqStep tools st e = .next { st with eventCount := st.eventCount + 1 } []) ∧
    (performQueryRequest false [metaEventIn1, textEventIn "abc", metaEventIn2]).outputs
      = [.yieldedMeta true false "text/plain", .yieldedText "abc" false false,
         .reported "Bot exited without sending 'done' event"] ∧
    (performQueryRequest false [metaEventIn1, textEventIn "abc", metaEventIn2]).result
      = .ok () := by
  refine ⟨?_, rfl, rfl⟩
  intro tools st e he hc
  obtain ⟨ev, d⟩ := e
  simp only at he
  subst he
  have h1 : ¬(st.eventCount + 1 = 1) := by omega
  simp [pqStep, h1]

/-- Witness for claim C5: the second `meta` event of the scenario, arriving
with one event already counted, is skipped. -/
theorem claim_C5_meta_first_witness :
    pqStep false ⟨[], 1, false⟩ metaEventIn2 = .next ⟨[], 2, false⟩ [] := by
  exact claim_C5_meta_first.1 false ⟨[], 1, false⟩ metaEventIn2 rfl (by decide)

/-- One unfolding of the retry loop: a successful attempt breaks. -/
theorem srb_step_success {attempts : Nat → AttemptOutcome} {i : Nat}
    {msgs : List ClientOutput} (botName : String) (n : Nat) (g : Bool)
    (acc : List ClientOutput) (h : attempts i = .success msgs) :
    streamRequestBaseAux attempts botName (n + 1) i g acc
      = ⟨i + 1, acc ++ msgs, .ok ()⟩ := by
  simp [streamRequestBaseAux, h]

/-- One unfolding of the retry loop: `BotErrorNoRetry` is rethrown at
once. -/
theorem srb_step_noRetry {attempts : Nat → AttemptOutcome} {i : Nat}
    {msgs : List ClientOutput} {m : String} (botName : String) (n : Nat) (g : Bool)
    (acc : List ClientOutput) (h : attempts i = .failure msgs (.noRetry m)) :
    streamRequestBaseAux attempts botName (n + 1) i g acc
      = ⟨i + 1, acc ++ msgs, .error (.botErrorNoRetry m)⟩ := by
  simp [streamRequestBaseAux, h]

/-- One unfolding of the retry loop: an ECONNABORTED failure on the last
try raises the communication error. -/
theorem srb_step_econn_last {attempts : Nat → AttemptOutcome} {i : Nat}
    {msgs : List ClientOutput} (botName : String) (g : Bool)
    (acc : List ClientOutput) (h : attempts i = .failure msgs .econnAborted) :
    streamRequestBaseAux attempts botName (0 + 1) i g acc
      = ⟨i + 1, acc ++ msgs, .error (.botError ("Error communicating with bot " ++ botName))⟩ := by
  simp [streamRequestBaseAux, h]

/-- One unfolding of the retry loop: an ECONNABORTED failure before the
last try sleeps and retries, even after yielded messages. -/
theorem srb_step_econn_retry {attempts : Nat → AttemptOutcome} {i : Nat}
    {msgs : List ClientOutput} (botName : String) (n : Nat) (g : Bool)
    (acc : List ClientOutput) (h : attempts i = .failure msgs .econnAborted)
    (hn : n ≠ 0) :
    streamRequestBaseAux attempts botName (n + 1) i g acc
      = streamRequestBaseAux attempts botName n (i + 1) (g || !msgs.isEmpty) (acc ++ msgs) := by
  simp [streamRequestBaseAux, h, hn]

/-- One unfolding of the retry loop: any other `Error` raises the
communication error when a message was already yielded or the tries are
exhausted. -/
theorem srb_step_other_fatal {attempts : Nat → AttemptOutcome} {i : Nat}
    {msgs : List ClientOutput} {m : String} (botName : String) (n : Nat) (g : Bool)
    (acc : List ClientOutput) (h : attempts i = .failure msgs (.other m))
    (hcond : (g || !msgs.isEmpty) = true ∨ n = 0) :
    streamRequestBaseAux attempts botName (n + 1) i g acc
      = ⟨i + 1, acc ++ msgs, .error (.botError ("Error communicating with bot " ++ botName))⟩ := by
  rcases hcond with hg | hn
  · simp [streamRequestBaseAux, h, hg]
  · subst hn
    simp [streamRequestBaseAux, h]

/-- One unfolding of the retry loop: any other `Error` before any yielded
message and before the last try sleeps and retries. -/
theorem srb_step_other_retry {attempts : Nat → AttemptOutcome} {i : Nat}
    {msgs : List ClientOutput} {m : String} (botName : String) (n : Nat) (g : Bool)
    (acc : List ClientOutput) (h : attempts i = .failure msgs (.other m))
    (hg : (g || !msgs.isEmpty) = false) (hn : n ≠ 0) :
    streamRequestBaseAux attempts botName (n + 1) i g acc
      = streamRequestBaseAux attempts botName n (i + 1) (g || !msgs.isEmpty) (acc ++ msgs) := by
  simp only [streamRequestBaseAux, h]
  rw [if_neg (show ¬((g || !msgs.isEmpty) = true ∨ n = 0) by simp [hg, hn])]

/-- The retry loop never calls `performQueryRequest` more than
`i + remaining` times. -/
theorem srb_calls_le (attempts : Nat → AttemptOutcome) (botName : String) :
    ∀ (r i : Nat) (g : Bool) (acc : List ClientOutput),
      (streamRequestBaseAux attempts botName r i g acc).calls ≤ i + r := by
  intro r
  induction r with
  | zero =>
    intro i g acc
    simp [streamRequestBaseAux]
  | succ n ih =>
    intro i g acc
    cases hA : attempts i with
    | success msgs =>
      rw [srb_step_success botName n g acc hA] <;> simp <;> omega
    | failure msgs err =>
      cases err with
      | noRetry m =>
        rw [srb_step_noRetry botName n g acc hA] <;> simp <;> omega
      | econnAborted =>
        by_cases hn : n = 0
        · subst hn
          rw [srb_step_econn_last botName g acc hA] <;> simp <;> omega
        · rw [srb_step_econn_retry botName n g acc hA hn]
          have := ih (i + 1) (g || !msgs.isEmpty) (acc ++ msgs)
          omega
      | other m =>
        by_cases hg : (g || !msgs.isEmpty) = true
        · rw [srb_step_other_fatal botName n g acc hA (Or.inl hg)] <;> simp <;> omega
        · by_cases hn : n = 0
          · rw [srb_step_other_fatal botName n g acc hA (Or.inr hn)] <;> simp <;> omega
          · rw [srb_step_other_retry botName n g acc hA (by simpa using hg) hn]
            have := ih (i + 1) (g || !msgs.isEmpty) (acc ++ msgs)
            omega
      | nonError =>
        have hstep : streamRequestBaseAux attempts botName (n + 1) i g acc
            = streamRequestBaseAux attempts botName n (i + 1) (g || !msgs.isEmpty)
                (acc ++ msgs) := by
          simp [streamRequestBaseAux, hA]
        rw [hstep]
        have := ih (i + 1) (g || !msgs.isEmpty) (acc ++ msgs)
        omega

/-- Claim C3: with `numTries = 3`, a first attempt raising
`BotErrorNoRetry` means exactly one call and that error; attempts that
fail transiently before yielding anything are retried (three calls, then
`BotError("Error communicating with bot <name>")`); no run makes more
than three calls; a transient non-ECONNABORTED error after at least one
yielded message means exactly one call and the communication error; and
ECONNABORTED failures after yielded output are still retried up to three
calls, ending in the communication error. -/
theorem claim_C3_retry_boundaries (botName : String) :
    (∀ (attempts : Nat → AttemptOutcome) (msgs : List ClientOutput) (m : String),
      attempts 0 = .failure msgs (.noRetry m) →
        streamRequestBase attempts botName 3
          = ⟨1, msgs, .error (.botErrorNoRetry m)⟩) ∧
    (∀ attempts : Nat → AttemptOutcome,
      (∀ i < 3, ∃ m, attempts i = .failure [] (.other m)) →
        streamRequestBase attempts botName 3
          = ⟨3, [], .error (.botError ("Error communicating with bot " ++ botName))⟩) ∧
    (∀ attempts : Nat → AttemptOutcome,
      (streamRequestBase attempts botName 3).calls ≤ 3) ∧
    (∀ (attempts : Nat → AttemptOutcome) (y : ClientOutput) (ys : List ClientOutput)
        (m : String),
      attempts 0 = .failure (y :: ys) (.other m) →
        streamRequestBase attempts botName 3
          = ⟨1, y :: ys, .error (.botError ("Error communicating with bot " ++ botName))⟩) ∧
    (∀ attempts : Nat → AttemptOutcome,
      (∀ i < 3, ∃ y ys, attempts i = .failure (y :: ys) .econnAborted) →
        (streamRequestBase attempts botName 3).calls = 3 ∧
        (streamRequestBase attempts botName 3).result
          = .error (.botError ("Error communicating with bot " ++ botName))) := by
  refine ⟨?_, ?_, ?_, ?_, ?_⟩
  · intro attempts msgs m h
    show streamRequestBaseAux attempts botName (2 + 1) 0 false [] = _
    rw [srb_step_noRetry botName 2 false [] h] <;> simp
  · intro attempts h
    obtain ⟨m0, h0⟩ := h 0 (by omega)
    obtain ⟨m1, h1⟩ := h 1 (by omega)
    obtain ⟨m2, h2⟩ := h 2 (by omega)
    show streamRequestBaseAux attempts botName (2 + 1) 0 false [] = _
    rw [srb_step_other_retry botName 2 false [] h0 (by simp) (by omega)]
    show streamRequestBaseAux attempts botName (1 + 1) 1 _ _ = _
    rw [srb_step_other_retry botName 1 _ _ h1 (by simp) (by omega)]
    show streamRequestBaseAux attempts botName (0 + 1) 2 _ _ = _
    rw [srb_step_other_fatal botName 0 _ _ h2 (Or.inr rfl)] <;> simp
  · intro attempts
    exact srb_calls_le attempts botName 3 0 false []
  · intro attempts y ys m h
    show streamRequestBaseAux attempts botName (2 + 1) 0 false [] = _
    rw [srb_step_other_fatal botName 2 false [] h (Or.inl (by simp))] <;> simp
  · intro attempts h
    obtain ⟨y0, ys0, h0⟩ := h 0 (by omega)
    obtain ⟨y1, ys1, h1⟩ := h 1 (by omega)
    obtain ⟨y2, ys2, h2⟩ := h 2 (by omega)
    have hrun : streamRequestBase attempts botName 3
        = ⟨3, (y0 :: ys0) ++ (y1 :: ys1) ++ (y2 :: ys2),
           .error (.botError ("Error communicating with bot " ++ botName))⟩ := by
      show streamRequestBaseAux attempts botName (2 + 1) 0 false [] = _
      rw [srb_step_econn_retry botName 2 false [] h0 (by omega)]
      show streamRequestBaseAux attempts botName (1 + 1) 1 _ _ = _
      rw [srb_step_econn_retry botName 1 _ _ h1 (by omega)]
      show streamRequestBaseAux attempts botName (0 + 1) 2 _ _ = _
      rw [srb_step_econn_last botName _ _ h2] <;> simp
    rw [hrun]
    exact ⟨rfl, rfl⟩

/-- Witness for claim C3 at concrete attempt behaviours against the bot
name `alice`. -/
theorem claim_C3_retry_boundaries_witness :
    streamRequestBase (fun _ => .failure [] (.noRetry "stop")) "alice" 3
      = ⟨1, [], .error (.botErrorNoRetry "stop")⟩ ∧
    streamRequestBase (fun _ => .failure [] (.other "conn reset")) "alice" 3
      = ⟨3, [], .error (.botError "Error communicating with bot alice")⟩ ∧
    streamRequestBase
        (fun _ => .failure [.yieldedText "t" false false] (.other "conn reset")) "alice" 3
      = ⟨1, [.yieldedText "t" false false],
         .error (.botError "Error communicating with bot alice")⟩ ∧
    (streamRequestBase
        (fun _ => .failure [.yieldedText "t" false false] .econnAborted) "alice" 3).calls
      = 3 := by
  refine ⟨?_, ?_, ?_, ?_⟩
  · exact (claim_C3_retry_boundaries "alice").1 _ [] "stop" rfl
  · exact (claim_C3_retry_boundaries "alice").2.1 _ (fun i _ => ⟨"conn reset", rfl⟩)
  · exact (claim_C3_retry_boundaries "alice").2.2.2.1 _ _ [] "conn reset" rfl
  · exact ((claim_C3_retry_boundaries "alice").2.2.2.2 _
      (fun i _ => ⟨.yieldedText "t" false false, [], rfl⟩)).1

/-- Appending the empty string is the identity. -/
theorem string_append_empty (s : String) : s ++ "" = s := by
  cases s
  show String.mk (_ ++ []) = _
  rw [List.append_nil]

/-- String append is associative. -/
theorem string_append_assoc (a b c : String) : a ++ b ++ c = a ++ (b ++ c) := by
  cases a; cases b; cases c
  show String.mk (_ ++ _ ++ _) = String.mk (_ ++ (_ ++ _))
  rw [List.append_assoc]

/-- `String.join` as a fold starting from a given accumulator. -/
theorem string_foldl_append (l : List String) :
    ∀ (x y : String), l.foldl (· ++ ·) (x ++ y) = x ++ l.foldl (· ++ ·) y := by
  induction l with
  | nil => intro x y; rfl
  | cons a rest ih =>
    intro x y
    show rest.foldl (· ++ ·) (x ++ y ++ a) = _
    rw [string_append_assoc, ih]
    rfl

/-- `String.join (a :: l) = a ++ String.join l`. -/
theorem string_join_cons (a : String) (l : List String) :
    String.join (a :: l) = a ++ String.join l := by
  show l.foldl (· ++ ·) ("" ++ a) = a ++ String.join l
  have h : "" ++ a = a ++ "" := by
    rw [string_append_empty]
    rfl
  rw [h, string_foldl_append]
  rfl

/-- The per-delta update applied by the aggregation loop when the index
is already present. -/
def argAppendMap (dict : List (Nat × ToolCallDelta)) (d0 : ToolCallDelta) :
    List (Nat × ToolCallDelta) :=
  dict.map (fun kv =>
    if kv.1 = d0.index then
      (kv.1, { kv.2 with arguments := kv.2.arguments ++ d0.arguments })
    else kv)

/-- Looking up a key untouched by the argument-append update leaves the
result unchanged. -/
theorem keyLookup_argAppendMap_ne (dict : List (Nat × ToolCallDelta))
    (d0 : ToolCallDelta) (j : Nat) (hne : j ≠ d0.index) :
    keyLookup j (argAppendMap dict d0) = keyLookup j dict := by
  induction dict with
  | nil => rfl
  | cons kv rest ih =>
    by_cases hk : kv.1 = d0.index
    · have hkj : ¬(kv.1 = j) := by omega
      simp [argAppendMap, keyLookup, hk, hkj, hne, Ne.symm hne, ih] at ih ⊢
      exact ih
    · by_cases hj : kv.1 = j
      · simp [argAppendMap, keyLookup, hk, hj, hne, Ne.symm hne]
      · simp [argAppendMap, keyLookup, hk, hj] at ih ⊢
        exact ih

/-- Looking up the updated key returns the entry with the delta's
arguments appended. -/
theorem keyLookup_argAppendMap_eq (dict : List (Nat × ToolCallDelta))
    (d0 : ToolCallDelta) (e : ToolCallDelta)
    (h : keyLookup d0.index dict = some e) :
    keyLookup d0.index (argAppendMap dict d0)
      = some { e with arguments := e.arguments ++ d0.arguments } := by
  induction dict with
  | nil => simp [keyLookup] at h
  | cons kv rest ih =>
    by_cases hk : kv.1 = d0.index
    · simp only [keyLookup, if_pos hk] at h
      cases h
      simp [argAppendMap, keyLookup, hk]
    · simp only [keyLookup, if_neg hk] at h
      simp only [argAppendMap, List.map_cons, if_neg hk, keyLookup, hk, if_false]
      simp only [argAppendMap] at ih
      exact ih h

/-- A key absent from the prefix is looked up in the appended entry. -/
theorem keyLookup_append_single (dict : List (Nat × ToolCallDelta)) (j : Nat)
    (x : Nat × ToolCallDelta) (h : keyLookup j dict = none) :
    keyLookup j (dict ++ [x]) = if x.1 = j then some x.2 else none := by
  induction dict with
  | nil => simp [keyLookup]
  | cons kv rest ih =>
    by_cases hk : kv.1 = j
    · simp [keyLookup, hk] at h
    · simp only [keyLookup, if_neg hk] at h
      simp [keyLookup, hk, ih h]

/-- A key found in the prefix is unaffected by an appended suffix. -/
theorem keyLookup_append_left (dict l2 : List (Nat × ToolCallDelta)) (j : Nat)
    (e : ToolCallDelta) (h : keyLookup j dict = some e) :
    keyLookup j (dict ++ l2) = some e := by
  induction dict with
  | nil => simp [keyLookup] at h
  | cons kv rest ih =>
    by_cases hk : kv.1 = j
    · simp only [keyLookup, if_pos hk] at h
      simp [keyLookup, hk, h]
    · simp only [keyLookup, if_neg hk] at h
      simp [keyLookup, hk, ih h]

/-- `keyLookup = none` iff no entry carries the key (as tested by the
`index in toolCallObjectDict` check of the aggregation loop). -/
theorem keyLookup_none_iff_any_false (dict : List (Nat × ToolCallDelta)) (j : Nat) :
    keyLookup j dict = none ↔ dict.any (fun kv => kv.1 = j) = false := by
  induction dict with
  | nil => simp [keyLookup]
  | cons kv rest ih =>
    by_cases hk : kv.1 = j
    · simp [keyLookup, hk]
    · simp [keyLookup, hk, ih]

/-- A key the lookup misses appears on no entry. -/
theorem not_mem_keys_of_keyLookup_none {dict : List (Nat × ToolCallDelta)} {j : Nat}
    (h : keyLookup j dict = none) : j ∉ dict.map Prod.fst := by
  induction dict with
  | nil => simp
  | cons kv rest ih =>
    by_cases hk : kv.1 = j
    · simp [keyLookup, hk] at h
    · simp only [keyLookup, if_neg hk] at h
      simp [ih h]
      omega

/-- On an association list with distinct keys, membership determines the
lookup result. -/
theorem keyLookup_some_of_mem_nodup {dict : List (Nat × ToolCallDelta)} {i : Nat}
    {e : ToolCallDelta} (hmem : (i, e) ∈ dict)
    (hnd : (dict.map Prod.fst).Nodup) : keyLookup i dict = some e := by
  induction dict with
  | nil => simp at hmem
  | cons kv rest ih =>
    rcases List.mem_cons.1 hmem with heq | htail
    · rw [← heq]
      simp [keyLookup]
    · have hnd2 : (rest.map Prod.fst).Nodup := (List.nodup_cons.1 hnd).2
      have hnotin : kv.1 ∉ rest.map Prod.fst := (List.nodup_cons.1 hnd).1
      have hik : ¬(kv.1 = i) := by
        intro hk
        exact hnotin (hk ▸ (List.mem_map.2 ⟨(i, e), htail, rfl⟩))
      simp [keyLookup, hik, ih htail hnd2]

/-- The two branches of `upsertToolCallDelta`, keyed on the `in` check. -/
theorem upsert_eq_argAppendMap (dict : List (Nat × ToolCallDelta))
    (d0 : ToolCallDelta) (hany : dict.any (fun kv => kv.1 = d0.index) = true) :
    upsertToolCallDelta dict d0 = argAppendMap dict d0 := by
  simp [upsertToolCallDelta, argAppendMap, hany]

/-- When the index is new the delta is appended whole. -/
theorem upsert_eq_append (dict : List (Nat × ToolCallDelta))
    (d0 : ToolCallDelta) (hany : dict.any (fun kv => kv.1 = d0.index) = false) :
    upsertToolCallDelta dict d0 = dict ++ [(d0.index, d0)] := by
  simp [upsertToolCallDelta, hany]

/-- Aggregating more deltas onto an entry already in the dictionary
appends the arguments of the matching deltas, in arrival order. -/
theorem agg_lookup_some :
    ∀ (ds : List ToolCallDelta) (dict : List (Nat × ToolCallDelta)) (i : Nat)
      (e : ToolCallDelta), keyLookup i dict = some e →
      keyLookup i (ds.foldl upsertToolCallDelta dict)
        = some { e with arguments :=
            e.arguments ++ String.join ((ds.filter (fun d => d.index = i)).map
              (fun d => d.arguments)) } := by
  intro ds
  induction ds with
  | nil =>
    intro dict i e h
    simp only [List.foldl_nil, List.filter_nil, List.map_nil]
    rw [h]
    simp [String.join, string_append_empty]
  | cons d0 rest ih =>
    intro dict i e h
    simp only [List.foldl_cons]
    by_cases hd : d0.index = i
    · subst hd
      have hany : dict.any (fun kv => kv.1 = d0.index) = true := by
        cases hA : dict.any (fun kv => kv.1 = d0.index)
        · rw [(keyLookup_none_iff_any_false dict d0.index).2 hA] at h
          exact absurd h (by simp)
        · rfl
      have h2 : keyLookup d0.index (upsertToolCallDelta dict d0)
          = some { e with arguments := e.arguments ++ d0.arguments } := by
        rw [upsert_eq_argAppendMap dict d0 hany]
        exact keyLookup_argAppendMap_eq dict d0 e h
      rw [ih _ _ _ h2]
      simp [List.filter_cons, string_join_cons, string_append_assoc]
    · have hlk : keyLookup i (upsertToolCallDelta dict d0) = some e := by
        cases hA : dict.any (fun kv => kv.1 = d0.index)
        · rw [upsert_eq_append dict d0 hA]
          exact keyLookup_append_left dict _ i e h
        · rw [upsert_eq_argAppendMap dict d0 hA]
          rw [keyLookup_argAppendMap_ne dict d0 i (by omega)]
          exact h
      rw [ih _ _ _ hlk]
      simp [List.filter_cons, hd]

/-- Aggregation from scratch: the entry for an index is the first delta
carrying it, with `arguments` replaced by the concatenation, in arrival
order, of the arguments of every delta carrying that index. -/
theorem agg_lookup_none :
    ∀ (ds : List ToolCallDelta) (dict : List (Nat × ToolCallDelta)) (i : Nat),
      keyLookup i dict = none →
      keyLookup i (ds.foldl upsertToolCallDelta dict)
        = (ds.find? (fun d => d.index = i)).map (fun d =>
            { d with arguments :=
              String.join ((ds.filter (fun d2 => d2.index = i)).map
                (fun d2 => d2.arguments)) }) := by
  intro ds
  induction ds with
  | nil =>
    intro dict i h
    simpa using h
  | cons d0 rest ih =>
    intro dict i h
    simp only [List.foldl_cons]
    by_cases hd : d0.index = i
    · subst hd
      have hany : dict.any (fun kv => kv.1 = d0.index) = false :=
        (keyLookup_none_iff_any_false _ _).1 h
      have h2 : keyLookup d0.index (upsertToolCallDelta dict d0) = some d0 := by
        rw [upsert_eq_append dict d0 hany, keyLookup_append_single dict _ _ h]
        simp
      rw [agg_lookup_some rest _ _ _ h2]
      simp [List.find?_cons, List.filter_cons, string_join_cons]
    · have hlk : keyLookup i (upsertToolCallDelta dict d0) = none := by
        cases hA : dict.any (fun kv => kv.1 = d0.index)
        · rw [upsert_eq_append dict d0 hA, keyLookup_append_single dict i _ h]
          simp [hd]
        · rw [upsert_eq_argAppendMap dict d0 hA]
          rw [keyLookup_argAppendMap_ne dict d0 i (by omega)]
          exact h
      rw [ih _ _ hlk]
      simp [List.find?_cons, List.filter_cons, hd]

/-- Aggregation keeps the dictionary keys distinct. -/
theorem agg_keys_nodup :
    ∀ (ds : List ToolCallDelta) (dict : List (Nat × ToolCallDelta)),
      (dict.map Prod.fst).Nodup →
      ((ds.foldl upsertToolCallDelta dict).map Prod.fst).Nodup := by
  intro ds
  induction ds with
  | nil =>
    intro dict h
    simpa using h
  | cons d0 rest ih =>
    intro dict h
    simp only [List.foldl_cons]
    apply ih
    cases hA : dict.any (fun kv => kv.1 = d0.index)
    · rw [upsert_eq_append dict d0 hA, List.map_append]
      have hnotin : d0.index ∉ dict.map Prod.fst :=
        not_mem_keys_of_keyLookup_none ((keyLookup_none_iff_any_false _ _).2 hA)
      simp [List.nodup_append, h, hnotin]
    · rw [upsert_eq_argAppendMap dict d0 hA]
      have hkeys : (argAppendMap dict d0).map Prod.fst = dict.map Prod.fst := by
        unfold argAppendMap
        rw [List.map_map]
        apply List.map_congr_left
        intro kv _
        by_cases hk : kv.1 = d0.index <;> simp [hk]
      rw [hkeys]
      exact h

/-- Inserting into the sorted list is a permutation of consing. -/
theorem insertByIndex_perm (x : Nat × ToolCallDelta) (l : List (Nat × ToolCallDelta)) :
    List.Perm (insertByIndex x l) (x :: l) := by
  induction l with
  | nil => simp [insertByIndex]
  | cons y rest ih =>
    simp only [insertByIndex]
    by_cases hxy : x.1 ≤ y.1
    · simp [hxy]
    · simp only [if_neg hxy]
      exact (ih.cons y).trans (List.Perm.swap x y rest)

/-- The insertion sort permutes its input. -/
theorem sortByIndex_perm (l : List (Nat × ToolCallDelta)) :
    List.Perm (sortByIndex l) l := by
  induction l with
  | nil => simp [sortByIndex]
  | cons x rest ih =>
    exact (insertByIndex_perm x (sortByIndex rest)).trans (ih.cons x)

/-- Inserting into a key-sorted list keeps it key-sorted. -/
theorem insertByIndex_sorted (x : Nat × ToolCallDelta)
    (l : List (Nat × ToolCallDelta)) (h : l.Pairwise (fun a b => a.1 ≤ b.1)) :
    (insertByIndex x l).Pairwise (fun a b => a.1 ≤ b.1) := by
  induction l with
  | nil => simp [insertByIndex]
  | cons y rest ih =>
    have hy : ∀ b ∈ rest, y.1 ≤ b.1 := (List.pairwise_cons.1 h).1
    have hrest : rest.Pairwise (fun a b => a.1 ≤ b.1) := (List.pairwise_cons.1 h).2
    simp only [insertByIndex]
    by_cases hxy : x.1 ≤ y.1
    · simp only [if_pos hxy]
      refine List.Pairwise.cons ?_ h
      intro b hb
      rcases List.mem_cons.1 hb with hb | hb
      · rw [hb]
        exact hxy
      · exact Nat.le_trans hxy (hy b hb)
    · simp only [if_neg hxy]
      refine List.Pairwise.cons ?_ (ih hrest)
      intro b hb
      rcases List.mem_cons.1 ((insertByIndex_perm x rest).mem_iff.1 hb) with hb | hb
      · rw [hb]
        omega
      · exact hy b hb

/-- The insertion sort produces a key-sorted list. -/
theorem sortByIndex_sorted (l : List (Nat × ToolCallDelta)) :
    (sortByIndex l).Pairwise (fun a b => a.1 ≤ b.1) := by
  induction l with
  | nil => simp [sortByIndex]
  | cons x rest ih => exact insertByIndex_sorted x (sortByIndex rest) ih

/-- Claim C4: deltas with equal `index` are concatenated in arrival order
into one call whose `function.arguments` is the concatenation of their
argument strings, the aggregated sequence is strictly sorted by ascending
index, and the deltas arriving with indices `[1, 0, 1]` and arguments
`["b", "a", "c"]` produce `[{index 0, "a"}, {index 1, "bc"}]`. -/
theorem claim_C4_tool_calls :
    (∀ ds : List ToolCallDelta,
      (sortedToolCallObjects ds).Pairwise (fun a b => a.1 < b.1)) ∧
    (∀ (ds : List ToolCallDelta) (i : Nat) (e : ToolCallDelta),
      (i, e) ∈ sortedToolCallObjects ds →
        e.arguments = String.join ((ds.filter (fun d => d.index = i)).map
          (fun d => d.arguments))) ∧
    getToolCalls
        [⟨1, "i1", "function", "f1", "b"⟩, ⟨0, "i0", "function", "f0", "a"⟩,
         ⟨1, "i1b", "function", "f1b", "c"⟩]
      = [⟨"i0", "function", ⟨"f0", "a"⟩⟩, ⟨"i1", "function", ⟨"f1", "bc"⟩⟩] := by
  refine ⟨?_, ?_, rfl⟩
  · intro ds
    have hnd : ((aggregateToolCallDeltas ds).map Prod.fst).Nodup :=
      agg_keys_nodup ds [] (by simp)
    have hsorted := sortByIndex_sorted (aggregateToolCallDeltas ds)
    have hne : (aggregateToolCallDeltas ds).Pairwise (fun a b => a.1 ≠ b.1) :=
      List.pairwise_map.1 hnd
    have hne2 : (sortedToolCallObjects ds).Pairwise (fun a b => a.1 ≠ b.1) :=
      ((sortByIndex_perm (aggregateToolCallDeltas ds)).pairwise_iff
        (fun h => Ne.symm h)).2 hne
    exact (hsorted.and hne2).imp (fun h => Nat.lt_of_le_of_ne h.1 h.2)
  · intro ds i e hmem
    have hnd : ((aggregateToolCallDeltas ds).map Prod.fst).Nodup :=
      agg_keys_nodup ds [] (by simp)
    have hmem2 : (i, e) ∈ aggregateToolCallDeltas ds :=
      (sortByIndex_perm (aggregateToolCallDeltas ds)).mem_iff.1 hmem
    have hlk := keyLookup_some_of_mem_nodup hmem2 hnd
    simp only [aggregateToolCallDeltas] at hlk
    rw [agg_lookup_none ds [] i rfl] at hlk
    rcases hfind : ds.find? (fun d => d.index = i) with _ | d
    · rw [hfind] at hlk
      simp at hlk
    · rw [hfind] at hlk
      have he := Option.some.inj hlk
      rw [← he]

/-- Witness for claim C4: the aggregated entry for index 1 of the sample
stream carries the concatenated arguments `"bc"`. -/
theorem claim_C4_tool_calls_witness :
    (1, (⟨1, "i1", "function", "f1", "bc"⟩ : ToolCallDelta))
      ∈ sortedToolCallObjects
          [⟨1, "i1", "function", "f1", "b"⟩, ⟨0, "i0", "function", "f0", "a"⟩,
           ⟨1, "i1b", "function", "f1b", "c"⟩] ∧
    (⟨1, "i1", "function", "f1", "bc"⟩ : ToolCallDelta).arguments
      = String.join
          (([⟨1, "i1", "function", "f1", "b"⟩, ⟨0, "i0", "function", "f0", "a"⟩,
             ⟨1, "i1b", "function", "f1b", "c"⟩].filter
              (fun d : ToolCallDelta => d.index = 1)).map (fun d => d.arguments)) :=
  ⟨by decide, claim_C4_tool_calls.2.1 _ 1 _ (by decide)⟩

/-- Splitting a separator-free string yields one chunk. -/
theorem splitSepsAux_nosep : ∀ (cs acc : List Char),
    (∀ c ∈ cs, c ≠ '\r' ∧ c ≠ '\n') → splitSepsAux cs acc = [acc.reverse ++ cs] := by
  intro cs acc
  induction cs, acc using splitSepsAux.induct with
  | case1 acc =>
    intro h
    simp [splitSepsAux]
  | case2 rest acc ih =>
    intro h
    simp at h
  | case3 rest acc ih =>
    intro h
    simp at h
  | case4 rest acc ih =>
    intro h
    simp at h
  | case5 c rest acc h1 h2 h3 ih =>
    intro h
    simp only [splitSepsAux, h2, h3]
    rw [ih (fun c2 hc2 => h c2 (List.mem_cons_of_mem c hc2))]
    simp

/-- The split never returns an empty chunk list. -/
theorem splitSepsAux_ne_nil : ∀ (cs acc : List Char), splitSepsAux cs acc ≠ [] := by
  intro cs acc
  induction cs, acc using splitSepsAux.induct with
  | case1 acc => simp [splitSepsAux]
  | case2 rest acc ih => simp [splitSepsAux]
  | case3 rest acc ih => simp [splitSepsAux]
  | case4 rest acc ih => simp [splitSepsAux]
  | case5 c rest acc h1 h2 h3 ih => simpa [splitSepsAux, h2, h3] using ih

/-- Every chunk the split produces is separator-free (given a clean
accumulator). -/
theorem splitSepsAux_chunks_nosep : ∀ (cs acc : List Char),
    (∀ c ∈ acc, c ≠ '\r' ∧ c ≠ '\n') →
    ∀ chunk ∈ splitSepsAux cs acc, ∀ c ∈ chunk, c ≠ '\r' ∧ c ≠ '\n' := by
  intro cs acc
  induction cs, acc using splitSepsAux.induct with
  | case1 acc =>
    intro hacc chunk hchunk c hc
    simp [splitSepsAux] at hchunk
    subst hchunk
    exact hacc c (by simpa using hc)
  | case2 rest acc ih =>
    intro hacc chunk hchunk c hc
    simp only [splitSepsAux, List.mem_cons] at hchunk
    rcases hchunk with hchunk | hchunk
    · subst hchunk
      exact hacc c (by simpa using hc)
    · exact ih (by simp) chunk hchunk c hc
  | case3 rest acc hx ih =>
    intro hacc chunk hchunk c hc
    simp only [splitSepsAux, hx, List.mem_cons] at hchunk
    rcases hchunk with hchunk | hchunk
    · subst hchunk
      exact hacc c (by simpa using hc)
    · exact ih (by simp) chunk hchunk c hc
  | case4 rest acc ih =>
    intro hacc chunk hchunk c hc
    simp only [splitSepsAux, List.mem_cons] at hchunk
    rcases hchunk with hchunk | hchunk
    · subst hchunk
      exact hacc c (by simpa using hc)
    · exact ih (by simp) chunk hchunk c hc
  | case5 c0 rest acc h1 h2 h3 ih =>
    intro hacc chunk hchunk c hc
    simp only [splitSepsAux, h2, h3] at hchunk
    refine ih ?_ chunk hchunk c hc
    intro c2 hc2
    rcases List.mem_cons.1 hc2 with hc2 | hc2
    · subst hc2
      exact ⟨fun hcc => h2 hcc, fun hcc => h3 hcc⟩
    · exact hacc c2 hc2

/-- Joining the chunks of a carriage-return-free string with `\n`
restores the string. -/
theorem nlJoin_splitSepsAux : ∀ (cs acc : List Char), '\r' ∉ cs →
    nlJoin (splitSepsAux cs acc) = acc.reverse ++ cs := by
  intro cs acc
  induction cs, acc using splitSepsAux.induct with
  | case1 acc =>
    intro h
    simp [splitSepsAux, nlJoin]
  | case2 rest acc ih =>
    intro h
    simp at h
  | case3 rest acc ih =>
    intro h
    simp at h
  | case4 rest acc ih =>
    intro h
    have hrest : '\r' ∉ rest := fun hr => h (List.mem_cons_of_mem _ hr)
    have hne := splitSepsAux_ne_nil rest []
    have hthis := ih hrest
    rcases hsp : splitSepsAux rest [] with _ | ⟨x, xs⟩
    · exact absurd hsp hne
    · rw [hsp] at hthis
      have h2 : nlJoin (x :: xs) = rest := by simpa using hthis
      simp only [splitSepsAux, hsp]
      show acc.reverse ++ '\n' :: nlJoin (x :: xs) = acc.reverse ++ '\n' :: rest
      rw [h2]
  | case5 c rest acc h1 h2 h3 ih =>
    intro h
    have hrest : '\r' ∉ rest := fun hr => h (List.mem_cons_of_mem _ hr)
    simp only [splitSepsAux, h2, h3]
    rw [ih hrest]
    simp

/-- Stripping the first separator from a separator-free string is the
identity. -/
theorem stripFirstSep_nosep : ∀ (cs : List Char),
    (∀ c ∈ cs, c ≠ '\r' ∧ c ≠ '\n') → stripFirstSep cs = cs := by
  intro cs
  induction cs using stripFirstSep.induct with
  | case1 => intro h; rfl
  | case2 rest => intro h; simp at h
  | case3 rest => intro h; simp at h
  | case4 rest => intro h; simp at h
  | case5 c rest h1 h2 h3 ih =>
    intro h
    simp only [stripFirstSep, h2, h3]
    rw [ih (fun c2 hc2 => h c2 (List.mem_cons_of_mem c hc2))]

/-- Scanning past a character that cannot start the `\r\n` separator. -/
theorem crlfSplitAux_cons_ne (c : Char) (hc : ¬c = '\r') (cs acc : List Char) :
    crlfSplitAux (c :: cs) acc = crlfSplitAux cs (c :: acc) := by
  simp [crlfSplitAux, hc]

/-- `crlfSplitAux` peels one separator-terminated line off the front. -/
theorem crlfSplitAux_append : ∀ (l : List Char), (∀ c ∈ l, c ≠ '\r' ∧ c ≠ '\n') →
    ∀ (rest acc : List Char),
      crlfSplitAux (l ++ '\r' :: '\n' :: rest) acc
        = (acc.reverse ++ l) :: crlfSplitAux rest [] := by
  intro l
  induction l with
  | nil =>
    intro h rest acc
    simp [crlfSplitAux]
  | cons c cs ih =>
    intro h rest acc
    have hc := h c (by simp)
    show crlfSplitAux (c :: (cs ++ '\r' :: '\n' :: rest)) acc = _
    rw [crlfSplitAux_cons_ne c hc.1 _ acc,
      ih (fun c2 hc2 => h c2 (List.mem_cons_of_mem c hc2)) rest (c :: acc)]
    simp

/-- Digit characters lie between `'0'` and `'9'`. -/
theorem digitChar_range (d : Nat) : '0' ≤ digitChar d ∧ digitChar d ≤ '9' := by
  unfold digitChar
  split <;> decide

/-- The numeric value of a digit character. -/
theorem digitChar_toNat (d : Nat) (h : d < 10) : (digitChar d).toNat = d + 48 := by
  interval_cases d <;> decide

/-- The accumulator form of the digit printer appends. -/
theorem natToCharsAux_eq (n : Nat) : ∀ acc : List Char,
    natToCharsAux n acc = natToChars n ++ acc := by
  induction n using Nat.strong_induction_on with
  | _ n ih =>
    intro acc
    by_cases h : n < 10
    · rw [natToCharsAux, dif_pos h]
      rw [show natToChars n = digitChar n :: [] from by rw [natToChars, natToCharsAux, dif_pos h]]
      simp
    · have hlt : n / 10 < n := Nat.div_lt_self (by omega) (by omega)
      rw [natToCharsAux, dif_neg h, ih (n / 10) hlt]
      rw [show natToChars n = natToChars (n / 10) ++ [digitChar (n % 10)] from by
        rw [natToChars, natToCharsAux, dif_neg h, ih (n / 10) hlt]]
      simp

/-- Every printed digit is a digit character. -/
theorem natToChars_digits (n : Nat) : ∀ c ∈ natToChars n, '0' ≤ c ∧ c ≤ '9' := by
  induction n using Nat.strong_induction_on with
  | _ n ih =>
    intro c hc
    by_cases h : n < 10
    · rw [natToChars, natToCharsAux, dif_pos h] at hc
      simp at hc
      exact hc ▸ digitChar_range n
    · have hlt : n / 10 < n := Nat.div_lt_self (by omega) (by omega)
      rw [natToChars, natToCharsAux, dif_neg h, natToCharsAux_eq (n / 10)] at hc
      rcases List.mem_append.1 hc with hc | hc
      · exact ih (n / 10) hlt c hc
      · simp at hc
        exact hc ▸ digitChar_range (n % 10)

/-- The printed digits are never empty. -/
theorem natToChars_ne_nil (n : Nat) : natToChars n ≠ [] := by
  by_cases h : n < 10
  · rw [natToChars, natToCharsAux, dif_pos h]
    simp
  · rw [natToChars, natToCharsAux, dif_neg h, natToCharsAux_eq (n / 10)]
    simp

/-- `takeDigits` accumulates the decimal value of a digit run. -/
theorem takeDigits_digits : ∀ (ds : List Char), (∀ c ∈ ds, '0' ≤ c ∧ c ≤ '9') →
    ∀ a : Nat, takeDigits ds a true
      = some (ds.foldl (fun x c => x * 10 + (c.toNat - 48)) a) := by
  intro ds
  induction ds with
  | nil =>
    intro h a
    rfl
  | cons c rest ih =>
    intro h a
    have hc := h c (by simp)
    simp only [takeDigits, if_pos hc, List.foldl_cons]
    exact ih (fun c2 hc2 => h c2 (List.mem_cons_of_mem c hc2)) _

/-- `takeDigits` on a nonempty digit run, starting unseen. -/
theorem takeDigits_start (c : Char) (rest : List Char)
    (h : ∀ x ∈ c :: rest, '0' ≤ x ∧ x ≤ '9') :
    takeDigits (c :: rest) 0 false
      = some ((c :: rest).foldl (fun x d => x * 10 + (d.toNat - 48)) 0) := by
  have hc := h c (by simp)
  simp only [takeDigits, if_pos hc, List.foldl_cons]
  exact takeDigits_digits rest (fun c2 hc2 => h c2 (List.mem_cons_of_mem c hc2)) _

/-- Folding the decimal digits of `n` recovers `n`. -/
theorem foldl_natToChars (n : Nat) :
    (natToChars n).foldl (fun x c => x * 10 + (c.toNat - 48)) 0 = n := by
  induction n using Nat.strong_induction_on with
  | _ n ih =>
    by_cases h : n < 10
    · rw [natToChars, natToCharsAux, dif_pos h]
      simp [digitChar_toNat n h]
    · have hlt : n / 10 < n := Nat.div_lt_self (by omega) (by omega)
      rw [natToChars, natToCharsAux, dif_neg h, natToCharsAux_eq (n / 10),
        List.foldl_append, ih (n / 10) hlt]
      simp only [List.foldl_cons, List.foldl_nil]
      rw [digitChar_toNat (n % 10) (Nat.mod_lt n (by omega))]
      omega

/-- A digit character is not `parseInt` whitespace. -/
theorem digit_not_space (c : Char) (h : '0' ≤ c ∧ c ≤ '9') : isJsSpace c = false := by
  by_cases h1 : c = ' '
  · subst h1
    exact absurd h (by decide)
  by_cases h2 : c = '\t'
  · subst h2
    exact absurd h (by decide)
  by_cases h3 : c = '\n'
  · subst h3
    exact absurd h (by decide)
  by_cases h4 : c = '\r'
  · subst h4
    exact absurd h (by decide)
  simp [isJsSpace, h1, h2, h3, h4]

/-- A digit character is neither `'-'` nor `'+'`. -/
theorem digit_not_sign (c : Char) (h : '0' ≤ c ∧ c ≤ '9') : c ≠ '-' ∧ c ≠ '+' := by
  constructor
  · intro hc
    subst hc
    exact absurd h (by decide)
  · intro hc
    subst hc
    exact absurd h (by decide)

/-- `parseInt` of a bare digit run. -/
theorem parseIntJS_digits (ds : List Char) (hne : ds ≠ [])
    (h : ∀ c ∈ ds, '0' ≤ c ∧ c ≤ '9') :
    parseIntJS ds = some ((ds.foldl (fun x c => x * 10 + (c.toNat - 48)) 0 : Nat) : Int) := by
  rcases ds with _ | ⟨c, rest⟩
  · exact absurd rfl hne
  have hc := h c (by simp)
  have hdrop : (c :: rest).dropWhile isJsSpace = c :: rest := by
    rw [List.dropWhile_cons]
    simp [digit_not_space c hc]
  rw [parseIntJS.eq_def, hdrop]
  split
  · rename_i heq
    rw [(List.cons.inj heq).1] at hc
    exact absurd hc (by decide)
  · rename_i heq
    rw [(List.cons.inj heq).1] at hc
    exact absurd hc (by decide)
  · rename_i hne1 hne2
    rw [takeDigits_start c rest h]
    rfl

/-- Round trip: `parseInt` of the JS rendering of an integer gives the
integer back (as consumed by the decoder's `retry` field). -/
theorem parseIntJS_jsIntToString (i : Int) :
    parseIntJS (jsIntToString i).toList = some i := by
  by_cases hneg : i < 0
  · rw [jsIntToString, if_pos hneg]
    show parseIntJS ('-' :: natToChars i.natAbs) = some i
    have hstep : parseIntJS ('-' :: natToChars i.natAbs)
        = (takeDigits (natToChars i.natAbs) 0 false).map (fun n => -(n : Int)) := rfl
    rw [hstep]
    rcases hds : natToChars i.natAbs with _ | ⟨c, rest⟩
    · exact absurd hds (natToChars_ne_nil _)
    · have hdig : ∀ x ∈ c :: rest, '0' ≤ x ∧ x ≤ '9' := by
        rw [← hds]
        exact natToChars_digits i.natAbs
      rw [takeDigits_start c rest hdig, ← hds]
      have hval := foldl_natToChars i.natAbs
      rw [hval]
      show some (-(i.natAbs : Int)) = some i
      congr 1
      omega
  · rw [jsIntToString, if_neg hneg]
    show parseIntJS (natToChars i.toNat) = some i
    rw [parseIntJS_digits (natToChars i.toNat) (natToChars_ne_nil _)
      (natToChars_digits i.toNat), foldl_natToChars]
    congr 1
    omega

/-- A digit character is not a line separator. -/
theorem digit_not_sep (c : Char) (h : '0' ≤ c ∧ c ≤ '9') : c ≠ '\r' ∧ c ≠ '\n' := by
  constructor
  · intro hc
    subst hc
    exact absurd h (by decide)
  · intro hc
    subst hc
    exact absurd h (by decide)

/-- The JS rendering of an integer contains no line separator. -/
theorem jsIntToString_nosep (r : Int) :
    ∀ c ∈ (jsIntToString r).toList, c ≠ '\r' ∧ c ≠ '\n' := by
  intro c hc
  by_cases hneg : r < 0
  · rw [jsIntToString, if_pos hneg] at hc
    rcases List.mem_cons.1 hc with hc | hc
    · subst hc
      decide
    · exact digit_not_sep c (natToChars_digits r.natAbs c hc)
  · rw [jsIntToString, if_neg hneg] at hc
    exact digit_not_sep c (natToChars_digits r.toNat c hc)

/-- Splitting a sequence of separator-terminated clean lines recovers the
lines (plus the empty remainder after the last separator). -/
theorem crlfSplitAux_lines : ∀ (ls : List (List Char)),
    (∀ l ∈ ls, ∀ c ∈ l, c ≠ '\r' ∧ c ≠ '\n') →
    crlfSplitAux (catMap (fun l => l ++ ['\r', '\n']) ls) [] = ls ++ [[]] := by
  intro ls
  induction ls with
  | nil =>
    intro h
    simp [catMap, crlfSplitAux]
  | cons l rest ih =>
    intro h
    have hshape : catMap (fun l2 => l2 ++ ['\r', '\n']) (l :: rest)
        = l ++ '\r' :: '\n' :: catMap (fun l2 => l2 ++ ['\r', '\n']) rest := by
      simp [catMap, List.append_assoc]
    rw [hshape, crlfSplitAux_append l (h l (by simp)) _ [],
      ih (fun l2 hl2 => h l2 (List.mem_cons_of_mem l hl2))]
    simp

/-- Decoding an `id:` field line (by computation of `decodeCore`). -/
theorem decode_id_line (st : SSEDecoderState) (v : List Char) :
    decodeCore st ('i' :: 'd' :: ':' :: ' ' :: v)
      = if '\x00' ∈ v then (st, none)
        else ({ st with lastEventId := String.mk v }, none) := rfl

/-- Decoding an `event:` field line. -/
theorem decode_event_line (st : SSEDecoderState) (v : List Char) :
    decodeCore st ('e' :: 'v' :: 'e' :: 'n' :: 't' :: ':' :: ' ' :: v)
      = ({ st with event := String.mk v }, none) := rfl

/-- Decoding a `data:` field line. -/
theorem decode_data_line (st : SSEDecoderState) (v : List Char) :
    decodeCore st ('d' :: 'a' :: 't' :: 'a' :: ':' :: ' ' :: v)
      = ({ st with data := st.data ++ [String.mk v] }, none) := rfl

/-- Decoding a `retry:` field line. -/
theorem decode_retry_line (st : SSEDecoderState) (v : List Char) :
    decodeCore st ('r' :: 'e' :: 't' :: 'r' :: 'y' :: ':' :: ' ' :: v)
      = (match parseIntJS v with
         | some n => ({ st with retry := some n }, none)
         | none => (st, none)) := rfl

/-- Decoding a blank line (the dispatch conditional). -/
theorem decode_blank (st : SSEDecoderState) :
    decodeCore st []
      = if st.event = "" ∧ st.data = [] ∧ st.lastEventId = "" ∧ st.retry = none then
          (st, none)
        else
          ({ st with event := "", data := [], retry := none },
           some ⟨some (joinNewline st.data), some st.event, some st.lastEventId,
                 st.retry⟩) := rfl

/-- Feeding a line that dispatches nothing just advances the state. -/
theorem decodeAll_cons_none {st st2 : SSEDecoderState} {l : String}
    (rest : List String) (h : SSEDecoder.decode st l = (st2, none)) :
    decodeAll st (l :: rest) = decodeAll st2 rest := by
  simp [decodeAll, h]

/-- Feeding the final blank line that dispatches an event. -/
theorem decodeAll_last_blank {st st2 : SSEDecoderState} {ev : ServerSentEvent}
    (h : SSEDecoder.decode st "" = (st2, some ev)) :
    decodeAll st [""] = (st2, [ev]) := by
  simp [decodeAll, h]

/-- Feeding a run of `data:` lines accumulates the chunks in order. -/
theorem decodeAll_data_lines : ∀ (chunks : List (List Char)) (st : SSEDecoderState)
    (rest : List String),
    decodeAll st ((chunks.map (fun c => String.mk ("data: ".toList ++ c))) ++ rest)
      = decodeAll { st with data := st.data ++ chunks.map String.mk } rest := by
  intro chunks
  induction chunks with
  | nil =>
    intro st rest
    simp
  | cons c cs ih =>
    intro st rest
    simp only [List.map_cons, List.cons_append]
    rw [decodeAll_cons_none _ (show SSEDecoder.decode st
        (String.mk ("data: ".toList ++ c))
        = ({ st with data := st.data ++ [String.mk c] }, none) from
      decode_data_line st c), ih]
    simp

/-- The encoded record body is the separator-terminated field lines. -/
theorem encodeCoreWith_eq (sse : ServerSentEvent) :
    encodeCoreWith sse [] ['\r', '\n']
      = catMap (fun l => l ++ ['\r', '\n']) (recordFieldLines sse ++ [[]]) := by
  obtain ⟨d, ev, i, r⟩ := sse
  cases d <;> cases ev <;> cases i <;> cases r <;>
    simp [encodeCoreWith, recordFieldLines, catMap, List.map_map, Function.comp_def,
      List.cons_append, List.append_assoc]

/-- Under the cleanliness hypotheses on `id` and `event`, the lines of an
encoded record are exactly the field lines plus the final blank line. -/
theorem encodeRecordLines_eq (sse : ServerSentEvent)
    (hid : ∀ c ∈ (sse.id.getD "").toList, c ≠ '\r' ∧ c ≠ '\n')
    (hev : ∀ c ∈ (sse.event.getD "").toList, c ≠ '\r' ∧ c ≠ '\n') :
    encodeRecordLines sse = (recordFieldLines sse).map String.mk ++ [""] := by
  have hlines : ∀ l ∈ recordFieldLines sse ++ [[]], ∀ c ∈ l, c ≠ '\r' ∧ c ≠ '\n' := by
    intro l hl
    rcases List.mem_append.1 hl with hl | hl
    · rcases List.mem_append.1 (by
        simpa only [recordFieldLines, List.append_assoc] using hl) with hl1 | hl1
      · -- the id line
        rcases hi : sse.id with _ | i
        · rw [hi] at hl1
          simp at hl1
        · rw [hi] at hl1
          simp only [List.mem_singleton] at hl1
          subst hl1
          intro c hc
          rcases List.mem_append.1 hc with hc | hc
          · exact (by decide : ∀ x ∈ "id: ".toList, x ≠ '\r' ∧ x ≠ '\n') c hc
          · have hid2 : ∀ x ∈ i.toList, x ≠ '\r' ∧ x ≠ '\n' := by
              simpa [hi] using hid
            rw [stripFirstSep_nosep i.toList hid2] at hc
            exact hid2 c hc
      rcases List.mem_append.1 hl1 with hl2 | hl2
      · -- the event line
        rcases hevn : sse.event with _ | v
        · rw [hevn] at hl2
          simp at hl2
        · rw [hevn] at hl2
          simp only [List.mem_singleton] at hl2
          subst hl2
          intro c hc
          rcases List.mem_append.1 hc with hc | hc
          · exact (by decide : ∀ x ∈ "event: ".toList, x ≠ '\r' ∧ x ≠ '\n') c hc
          · have hev2 : ∀ x ∈ v.toList, x ≠ '\r' ∧ x ≠ '\n' := by
              simpa [hevn] using hev
            rw [stripFirstSep_nosep v.toList hev2] at hc
            exact hev2 c hc
      rcases List.mem_append.1 hl2 with hl3 | hl3
      · -- a data line
        rcases hd : sse.data with _ | dstr
        · rw [hd] at hl3
          simp at hl3
        · rw [hd] at hl3
          obtain ⟨chunk, hchunk, rfl⟩ := List.mem_map.1 hl3
          intro c hc
          rcases List.mem_append.1 hc with hc | hc
          · exact (by decide : ∀ x ∈ "data: ".toList, x ≠ '\r' ∧ x ≠ '\n') c hc
          · exact splitSepsAux_chunks_nosep dstr.toList [] (by simp) chunk hchunk c hc
      · -- the retry line
        rcases hr : sse.retry with _ | rv
        · rw [hr] at hl3
          simp at hl3
        · rw [hr] at hl3
          simp only [List.mem_singleton] at hl3
          subst hl3
          intro c hc
          rcases List.mem_append.1 hc with hc | hc
          · exact (by decide : ∀ x ∈ "retry: ".toList, x ≠ '\r' ∧ x ≠ '\n') c hc
          · exact jsIntToString_nosep rv c hc
    · simp only [List.mem_singleton] at hl
      subst hl
      intro c hc
      simp at hc
  simp only [encodeRecordLines]
  rw [encodeCoreWith_eq, crlfSplitAux_lines _ hlines, List.map_append,
    List.map_append]
  simp [List.dropLast_concat]

/-- Consuming the (optional) `id:` line of a record. -/
theorem decodeAll_id_segment (o : Option String) (rest : List String)
    (hid : ∀ c ∈ (o.getD "").toList, c ≠ '\x00' ∧ c ≠ '\r' ∧ c ≠ '\n') :
    decodeAll ⟨"", [], "", none⟩
      (((match o with
         | some i => ["id: ".toList ++ stripFirstSep i.toList]
         | none => []).map String.mk) ++ rest)
      = decodeAll ⟨"", [], o.getD "", none⟩ rest := by
  rcases o with _ | i
  · simp
  · have hnosep : ∀ c ∈ i.toList, c ≠ '\r' ∧ c ≠ '\n' := fun c hc =>
      ⟨(hid c hc).2.1, (hid c hc).2.2⟩
    have hdec : SSEDecoder.decode ⟨"", [], "", none⟩
        (String.mk ("id: ".toList ++ stripFirstSep i.toList))
        = (⟨"", [], i, none⟩, none) := by
      rw [stripFirstSep_nosep i.toList hnosep]
      show decodeCore ⟨"", [], "", none⟩ ('i' :: 'd' :: ':' :: ' ' :: i.toList) = _
      rw [decode_id_line,
        if_neg (show ¬('\x00' ∈ i.toList) from fun hmem => (hid _ hmem).1 rfl)]
      rw [mk_toList]
    simp only [List.map_cons, List.map_nil, List.singleton_append]
    exact decodeAll_cons_none rest hdec

/-- Consuming the (optional) `event:` line of a record. -/
theorem decodeAll_event_segment (o : Option String) (idv : String)
    (rest : List String)
    (hev : ∀ c ∈ (o.getD "").toList, c ≠ '\r' ∧ c ≠ '\n') :
    decodeAll ⟨"", [], idv, none⟩
      (((match o with
         | some v => ["event: ".toList ++ stripFirstSep v.toList]
         | none => []).map String.mk) ++ rest)
      = decodeAll ⟨o.getD "", [], idv, none⟩ rest := by
  rcases o with _ | v
  · simp
  · have hdec : SSEDecoder.decode ⟨"", [], idv, none⟩
        (String.mk ("event: ".toList ++ stripFirstSep v.toList))
        = (⟨v, [], idv, none⟩, none) := by
      rw [stripFirstSep_nosep v.toList hev]
      show decodeCore ⟨"", [], idv, none⟩
        ('e' :: 'v' :: 'e' :: 'n' :: 't' :: ':' :: ' ' :: v.toList) = _
      rw [decode_event_line, mk_toList]
    simp only [List.map_cons, List.map_nil, List.singleton_append]
    exact decodeAll_cons_none rest hdec

/-- Consuming the (optional) run of `data:` lines of a record. -/
theorem decodeAll_data_segment (o : Option String) (evv idv : String)
    (rest : List String) :
    decodeAll ⟨evv, [], idv, none⟩
      (((match o with
         | some d => (splitSepsAux d.toList []).map (fun chunk => "data: ".toList ++ chunk)
         | none => []).map String.mk) ++ rest)
      = decodeAll
          ⟨evv,
           (match o with
            | some d => (splitSepsAux d.toList []).map String.mk
            | none => []), idv, none⟩ rest := by
  rcases o with _ | d
  · simp
  · have hshape : ((splitSepsAux d.toList []).map
        (fun chunk => "data: ".toList ++ chunk)).map String.mk
        = (splitSepsAux d.toList []).map
            (fun c => String.mk ("data: ".toList ++ c)) := by
      rw [List.map_map]
      rfl
    show decodeAll ⟨evv, [], idv, none⟩ (((splitSepsAux d.toList []).map
        (fun chunk => "data: ".toList ++ chunk)).map String.mk ++ rest) = _
    rw [hshape, decodeAll_data_lines (splitSepsAux d.toList []) ⟨evv, [], idv, none⟩ rest]
    simp

/-- Consuming the (optional) `retry:` line of a record. -/
theorem decodeAll_retry_segment (o : Option Int) (evv idv : String)
    (ds : List String) (rest : List String) :
    decodeAll ⟨evv, ds, idv, none⟩
      (((match o with
         | some r => ["retry: ".toList ++ (jsIntToString r).toList]
         | none => []).map String.mk) ++ rest)
      = decodeAll ⟨evv, ds, idv, o⟩ rest := by
  rcases o with _ | r
  · simp
  · have hdec : SSEDecoder.decode ⟨evv, ds, idv, none⟩
        (String.mk ("retry: ".toList ++ (jsIntToString r).toList))
        = (⟨evv, ds, idv, some r⟩, none) := by
      show decodeCore ⟨evv, ds, idv, none⟩
        ('r' :: 'e' :: 't' :: 'r' :: 'y' :: ':' :: ' ' :: (jsIntToString r).toList) = _
      rw [decode_retry_line, parseIntJS_jsIntToString r]
    simp only [List.map_cons, List.map_nil, List.singleton_append]
    exact decodeAll_cons_none rest hdec

/-- Claim C1 (amended): for every event `e` whose `data` contains no NUL
and no carriage return, whose `id` contains no NUL and no line
terminator, whose `event` name contains no line terminator, and which has
at least one nonempty field (a nonempty `event`, a present `data`, a
nonempty `id`, or a present `retry`), feeding the lines of
`encodeServerSentEvent(e)` into a fresh `SSEDecoder` yields exactly one
event, equal to `e` except that each absent string field decodes to `""`
- in particular an absent `event` decodes to `""`, NOT to `"message"`,
because the decoder's `?? 'message'` fallback is dead code - and an
absent `retry` decodes to unset. -/
theorem claim_C1_amended (e : ServerSentEvent)
    (hdata : ∀ c ∈ (e.data.getD "").toList, c ≠ '\x00' ∧ c ≠ '\r')
    (hid : ∀ c ∈ (e.id.getD "").toList, c ≠ '\x00' ∧ c ≠ '\r' ∧ c ≠ '\n')
    (hevent : ∀ c ∈ (e.event.getD "").toList, c ≠ '\r' ∧ c ≠ '\n')
    (hsome : e.event.getD "" ≠ "" ∨ e.data ≠ none ∨ e.id.getD "" ≠ "" ∨
      e.retry ≠ none) :
    decodeStream (encodeRecordLines e)
      = [⟨some (e.data.getD ""), some (e.event.getD ""), some (e.id.getD ""),
          e.retry⟩] := by
  obtain ⟨d, ev, i, r⟩ := e
  rw [decodeStream, encodeRecordLines_eq _
    (fun c hc => ⟨(hid c hc).2.1, (hid c hc).2.2⟩) hevent]
  simp only [recordFieldLines, List.map_append, List.append_assoc, initSSEDecoder]
  rw [decodeAll_id_segment i _ hid, decodeAll_event_segment ev _ _ hevent,
    decodeAll_data_segment d _ _ _, decodeAll_retry_segment r _ _ _ _]
  rcases d with _ | ds
  · show (decodeAll ⟨ev.getD "", [], i.getD "", r⟩ [""]).2 = _
    have hne : ¬(ev.getD "" = "" ∧ ([] : List String) = [] ∧
        i.getD "" = "" ∧ r = none) := by
      rcases hsome with h | h | h | h
      · intro hcon
        exact h hcon.1
      · exact absurd rfl h
      · intro hcon
        exact h hcon.2.2.1
      · intro hcon
        exact h hcon.2.2.2
    have hdec : SSEDecoder.decode ⟨ev.getD "", [], i.getD "", r⟩ ""
        = (⟨"", [], i.getD "", none⟩,
           some ⟨some "", some (ev.getD ""), some (i.getD ""), r⟩) := by
      show decodeCore _ [] = _
      rw [decode_blank, if_neg hne]
      rfl
    rw [decodeAll_last_blank hdec]
    rfl
  · show (decodeAll
      ⟨ev.getD "", (splitSepsAux ds.toList []).map String.mk, i.getD "", r⟩
      [""]).2 = _
    have hjoin : joinNewline ((splitSepsAux ds.toList []).map String.mk) = ds := by
      have hnoCR : '\r' ∉ ds.toList := fun hmem => (hdata '\r' hmem).2 rfl
      rw [joinNewline, List.map_map]
      have hmm : (splitSepsAux ds.toList []).map (String.toList ∘ String.mk)
          = splitSepsAux ds.toList [] := by
        simp [Function.comp_def]
      rw [hmm, nlJoin_splitSepsAux ds.toList [] hnoCR]
      simp [mk_toList]
    have hne : ¬(ev.getD "" = "" ∧
        (splitSepsAux ds.toList []).map String.mk = [] ∧
        i.getD "" = "" ∧ r = none) := by
      intro hcon
      have h2 := hcon.2.1
      simp at h2
      exact splitSepsAux_ne_nil ds.toList [] h2
    have hdec : SSEDecoder.decode
        ⟨ev.getD "", (splitSepsAux ds.toList []).map String.mk, i.getD "", r⟩ ""
        = (⟨"", [], i.getD "", none⟩,
           some ⟨some ds, some (ev.getD ""), some (i.getD ""), r⟩) := by
      show decodeCore _ [] = _
      rw [decode_blank, if_neg hne, hjoin]
    rw [decodeAll_last_blank hdec]
    rfl

/-- Witness for the amended claim C1 at a concrete event with a
multi-line body. -/
theorem claim_C1_amended_witness :
    decodeStream (encodeRecordLines ⟨some "hello\nworld", some "greet", some "42", none⟩)
      = [⟨some "hello\nworld", some "greet", some "42", none⟩] := by
  have h := claim_C1_amended ⟨some "hello\nworld", some "greet", some "42", none⟩
    (by decide) (by decide) (by decide) (by decide)
  simpa using h

end TsPoe
